import Mathlib

/-!
Verification of the text analyzer module (`text_analyzer.py`): a shallow
embedding of `analyze_text` and `format_analysis_report` over lists of
characters, with Python floats modelled as exact rationals and Python
dictionaries modelled as association lists in insertion order.

The embedding covers ASCII text: the Python character classification
methods (`isupper`, `islower`, `isdigit`, `isalpha`, `isspace`, `lower`,
`title`) are modelled by their ASCII behaviour, which is what the
specification's claims quantify over.
-/

namespace TextAnalyzer

/-- Python strings are modelled as lists of characters. -/
abbrev Str := List Char

/-- Shorthand turning a Lean string literal into the `Str` model. -/
def strL (s : String) : Str := s.toList

/-- ASCII model of Python `str.isupper` on a single character. -/
def asciiIsUpper (c : Char) : Bool := 65 ≤ c.toNat && c.toNat ≤ 90

/-- ASCII model of Python `str.islower` on a single character. -/
def asciiIsLower (c : Char) : Bool := 97 ≤ c.toNat && c.toNat ≤ 122

/-- ASCII model of Python `str.isalpha` on a single character. -/
def asciiIsAlpha (c : Char) : Bool := asciiIsUpper c || asciiIsLower c

/-- ASCII model of Python `str.isdigit` on a single character. -/
def asciiIsDigit (c : Char) : Bool := 48 ≤ c.toNat && c.toNat ≤ 57

/-- Model of Python `str.isspace` on a single character: space, tab,
newline, carriage return, vertical tab, form feed. -/
def pyIsSpace (c : Char) : Bool :=
  c.toNat = 32 || c.toNat = 9 || c.toNat = 10 || c.toNat = 13 ||
  c.toNat = 11 || c.toNat = 12

/-- The punctuation set `".,!?;:"` used by `analyze_text` (line 93):
membership test `c in ".,!?;:"`. -/
def isPunctChar (c : Char) : Bool :=
  c = '.' || c = ',' || c = '!' || c = '?' || c = ';' || c = ':'

/-- ASCII model of Python `str.lower` on a single character. -/
def pyToLower (c : Char) : Char :=
  if asciiIsUpper c then Char.ofNat (c.toNat + 32) else c

/-- ASCII model of Python `str.upper` on a single character. -/
def pyToUpper (c : Char) : Char :=
  if asciiIsLower c then Char.ofNat (c.toNat - 32) else c

/-- Model of Python `text.lower()`. -/
def pyLower (s : Str) : Str := s.map pyToLower

/-- Model of Python `str.strip()`: remove leading and trailing
whitespace characters. -/
def pyStrip (s : Str) : Str :=
  ((s.dropWhile pyIsSpace).reverse.dropWhile pyIsSpace).reverse

/-- The sentence separator class `[.!?]` of the `re.split` pattern at
line 40 of `text_analyzer.py`. -/
def isSentenceSep (c : Char) : Bool := c = '.' || c = '!' || c = '?'

/-- Model of `re.split("[X]+", s)` for a character class `p`: the
(possibly empty) fragments lying between maximal runs of `p`-characters.
`re.split` on an empty string yields `[""]`, and leading/trailing
separator runs produce empty fragments, which this definition mirrors.
The recursion looks one character ahead: a separator followed by another
separator belongs to the same run, so no new fragment starts. -/
def reSplitPlus (p : Char → Bool) : Str → List Str
  | [] => [[]]
  | c :: rest =>
    let fs := reSplitPlus p rest
    if p c then
      match rest with
      | [] => [[], []]
      | d :: _ =>
        if p d then fs
        else [] :: fs
    else
      match fs with
      | [] => [[c]]      -- unreachable: `reSplitPlus` never returns `[]`
      | f :: fs' => (c :: f) :: fs'

/-- Model of Python `text.split("\n\n")` (line 44): split at
non-overlapping occurrences of the two-character separator, scanning
left to right. -/
def splitParagraphSep : Str → List Str
  | [] => [[]]
  | '\n' :: '\n' :: rest => [] :: splitParagraphSep rest
  | c :: rest =>
    match splitParagraphSep rest with
    | [] => [[c]]
    | f :: fs => (c :: f) :: fs

/-- Lines 40-41: `re.split(r"[.!?]+", text.strip())`, then keep the
stripped fragments that are non-empty.  The Python comprehension
`[s.strip() for s in sentences if s.strip()]` maps `strip` and keeps the
results that are non-empty, which is `filter (· ≠ []) ∘ map pyStrip`. -/
def sentenceList (text : Str) : List Str :=
  ((reSplitPlus isSentenceSep (pyStrip text)).map pyStrip).filter
    (fun s => decide (s ≠ []))

/-- Line 44: `[p.strip() for p in text.split("\n\n") if p.strip()]`. -/
def paragraphList (text : Str) : List Str :=
  ((splitParagraphSep text).map pyStrip).filter (fun s => decide (s ≠ []))

/-- ASCII word character, the `\w` class of `re`: letters, digits and
underscore. -/
def isWordChar (c : Char) : Bool := asciiIsAlpha c || asciiIsDigit c || c = '_'

/-- The maximal runs of `p`-characters of a string, in order.  The
recursion looks one character ahead: a `p`-character followed by another
`p`-character joins the run that the recursive call began. -/
def maximalRuns (p : Char → Bool) : Str → List Str
  | [] => []
  | c :: rest =>
    let rs := maximalRuns p rest
    if p c then
      match rest with
      | [] => [[c]]
      | d :: _ =>
        if p d then
          match rs with
          | r :: rs' => (c :: r) :: rs'
          | [] => [[c]]  -- unreachable: `rest` starts with a `p`-character
        else [c] :: rs
    else rs

/-- Line 47: `re.findall(r"\b[a-zA-Z]+\b", text.lower())`.

A match of `\b[a-zA-Z]+\b` is a run of letters with a word boundary on
both sides, i.e. a run of letters that is neither preceded nor followed
by a word character (`[a-zA-Z0-9_]`).  Hence the matches are exactly the
maximal runs of word characters that consist entirely of letters: a
maximal word-character run that contains a digit or underscore yields no
match at all, because every all-letter sub-run of it is bordered by a
word character on at least one side. -/
def wordsOf (text : Str) : List Str :=
  (maximalRuns isWordChar (pyLower text)).filter (fun r => r.all asciiIsAlpha)

/-- The list `letters` of line 76: `[c for c in text.lower() if c.isalpha()]`. -/
def lettersOf (text : Str) : Str := (pyLower text).filter asciiIsAlpha

/-! ### Counters and selection

`collections.Counter` iterates its keys in first-insertion order, i.e. in
the order of each element's first occurrence, and `most_common(n)` sorts
the `(key, count)` pairs by descending count with a stable sort, so ties
keep that first-occurrence order. -/

/-- The distinct elements of a list, each at its first occurrence, in
order: the key order of `collections.Counter(l)`. -/
def firstOccurrences {α : Type} [DecidableEq α] : List α → List α
  | [] => []
  | a :: l => a :: (firstOccurrences l).filter (fun b => decide (b ≠ a))

/-- Stable insertion into a list sorted by descending count: the new
pair goes after every pair with a count at least as large. -/
def insertDesc {α : Type} (x : α × Nat) : List (α × Nat) → List (α × Nat)
  | [] => [x]
  | y :: ys => if y.2 ≤ x.2 then x :: y :: ys else y :: insertDesc x ys

/-- Stable sort by descending count (insertion sort). -/
def sortDesc {α : Type} : List (α × Nat) → List (α × Nat)
  | [] => []
  | x :: xs => insertDesc x (sortDesc xs)

/-- Model of `Counter(l).most_common(n)`: pair every distinct element
(in first-occurrence order) with its number of occurrences, stably sort
by descending count, and take the first `n` pairs. -/
def most_common {α : Type} [DecidableEq α] (l : List α) (n : Nat) : List (α × Nat) :=
  (sortDesc ((firstOccurrences l).map (fun a => (a, l.count a)))).take n

/-- Model of Python `max(x :: l, key=len)`: scan left to right, keeping
the current element unless a strictly longer one appears, so the first
element of maximal length wins. -/
def pyMaxByLen (x : Str) (l : List Str) : Str :=
  l.foldl (fun b y => if b.length < y.length then y else b) x

/-- Model of Python `min(x :: l, key=len)`: the first element of minimal
length wins. -/
def pyMinByLen (x : Str) (l : List Str) : Str :=
  l.foldl (fun b y => if y.length < b.length then y else b) x

/-- Lines 65-68: `sum(len(w) for w in words) / len(words)`, as an exact
rational. -/
def avgWordLength (words : List Str) : ℚ :=
  ((words.map List.length).sum : ℚ) / (words.length : ℚ)

/-! ### Rounding

Python `round(x, 2)` rounds half to even (banker's rounding).  The model
works on exact rationals. -/

/-- Round a rational to the nearest integer, half to even. -/
def roundHalfEven (q : ℚ) : ℤ :=
  if q - ⌊q⌋ < (1 / 2 : ℚ) then ⌊q⌋
  else if (1 / 2 : ℚ) < q - ⌊q⌋ then ⌊q⌋ + 1
  else if ⌊q⌋ % 2 = 0 then ⌊q⌋ else ⌊q⌋ + 1

/-- Model of Python `round(x, 2)` on exact rationals. -/
def pyRound2 (q : ℚ) : ℚ := (roundHalfEven (q * 100) : ℚ) / 100

/-! ### The result dictionary

Python dictionaries are modelled as association lists in insertion
order; `lookup` finds the (unique) binding of a key. -/

/-- A JSON-like value: the kinds of values `analyze_text` stores. -/
inductive JVal where
  | nat (n : Nat)
  | rat (q : ℚ)
  | str (s : Str)
  | wordPairs (l : List (Str × Nat))
  | charPairs (l : List (Char × Nat))
  | dict (d : List (String × JVal))

/-- A Python dictionary with string keys. -/
abbrev Dict := List (String × JVal)

/-- A configuration value passed in `options`. -/
inductive OptVal where
  | int (n : ℤ)
  | bool (b : Bool)
  | str (s : String)
deriving DecidableEq

/-- The configuration mapping. -/
abbrev OptDict := List (String × OptVal)

/-- Python `isinstance(v, int)` together with the integer value: Python
booleans are integers (`True` is `1`, `False` is `0`); strings are not. -/
def OptVal.asInt : OptVal → Option ℤ
  | .int n => some n
  | .bool b => some (if b then 1 else 0)
  | .str _ => none

/-- Python truthiness of a configuration value. -/
def OptVal.truthy : OptVal → Bool
  | .int n => decide (n ≠ 0)
  | .bool b => b
  | .str s => decide (s ≠ "")

/-- Lines 53-59: `top_count = 5` unless `options["top_words_count"]`
exists, is an integer, and is positive.  (The guard `options and ...` is
subsumed: a lookup in an empty mapping fails.) -/
def topCountOf (options : OptDict) : Nat :=
  match options.lookup "top_words_count" with
  | some v =>
    match v.asInt with
    | some n => if 0 < n then n.toNat else 5
    | none => 5
  | none => 5

/-- Truthiness test `options and key in options and options[key]` used
for the two `include_*` flags. -/
def flagOf (key : String) (options : OptDict) : Bool :=
  match options.lookup key with
  | some v => v.truthy
  | none => false

/-! ### The analysis sections -/

/-- Lines 35-45: the `basic_stats` section.  `text.replace(" ", "")`
removes exactly the space character. -/
def basicStatsDict (text : Str) : Dict :=
  [("total_characters", JVal.nat text.length),
   ("total_characters_no_spaces",
     JVal.nat (text.filter (fun c => decide (c ≠ ' '))).length),
   ("total_sentences", JVal.nat (sentenceList text).length),
   ("total_paragraphs", JVal.nat (paragraphList text).length)]

/-- Lines 48-74: the `word_analysis` section.  `total_words` is always
present; the remaining fields only when at least one word was found.
`unique_words` is `len(set(words))`, the number of distinct words. -/
def wordAnalysisDict (words : List Str) (top_count : Nat) : Dict :=
  ("total_words", JVal.nat words.length) ::
  (match words with
   | [] => []
   | w :: ws =>
     [("most_common_words", JVal.wordPairs (most_common words top_count)),
      ("average_word_length", JVal.rat (avgWordLength words)),
      ("longest_word", JVal.str (pyMaxByLen w ws)),
      ("shortest_word", JVal.str (pyMinByLen w ws)),
      ("unique_words", JVal.nat (firstOccurrences words).length),
      ("lexical_diversity",
        JVal.rat (((firstOccurrences words).length : ℚ) / (words.length : ℚ)))])

/-- Lines 76-97: the `character_analysis` section.  The
`most_common_letters` key is inserted first, and only when the text has
at least one alphabetic character; then the five counts. -/
def charAnalysisDict (text : Str) : Dict :=
  (if lettersOf text = [] then []
   else [("most_common_letters", JVal.charPairs (most_common (lettersOf text) 5))])
  ++ [("uppercase_count", JVal.nat (text.countP asciiIsUpper)),
      ("lowercase_count", JVal.nat (text.countP asciiIsLower)),
      ("digit_count", JVal.nat (text.countP asciiIsDigit)),
      ("punctuation_count", JVal.nat (text.countP isPunctChar)),
      ("whitespace_count", JVal.nat (text.countP pyIsSpace))]

/-- Lines 125-138: the discrete difficulty label, from the clamped
(unrounded) score. -/
def difficultyLevel (score : ℚ) : Str :=
  if 90 ≤ score then strL "Very Easy"
  else if 80 ≤ score then strL "Easy"
  else if 70 ≤ score then strL "Fairly Easy"
  else if 60 ≤ score then strL "Standard"
  else if 50 ≤ score then strL "Fairly Difficult"
  else if 30 ≤ score then strL "Difficult"
  else strL "Very Difficult"

/-- Lines 99-138: the `readability` section, filled only when both the
sentence count and the word count are positive.  `avg_syllables` reads
`result["word_analysis"]["average_word_length"]`, which in that branch
is `avgWordLength words`.  The score is clamped into `[0, 100]` before
rounding, and the difficulty label uses the clamped, unrounded score. -/
def readabilityDict (words : List Str) (sentences : List Str) : Dict :=
  if 0 < sentences.length ∧ 0 < words.length then
    let avg_words_per_sentence : ℚ := (words.length : ℚ) / (sentences.length : ℚ)
    let avg_sentence_length := avg_words_per_sentence
    let avg_syllables := avgWordLength words * (0.7 : ℚ)
    let readability_score :=
      (206.835 : ℚ) - (1.015 : ℚ) * avg_sentence_length - (84.6 : ℚ) * avg_syllables
    let clamped :=
      if 100 < readability_score then (100 : ℚ)
      else if readability_score < 0 then 0
      else readability_score
    [("average_words_per_sentence", JVal.rat avg_words_per_sentence),
     ("flesch_score", JVal.rat (pyRound2 clamped)),
     ("difficulty_level", JVal.str (difficultyLevel clamped))]
  else []

/-- The ten-word English reference list of lines 145-156. -/
def englishWords : List Str :=
  [strL "the", strL "and", strL "to", strL "of", strL "a",
   strL "in", strL "is", strL "it", strL "you", strL "that"]

/-- The ten-word Spanish reference list of lines 157-168. -/
def spanishWords : List Str :=
  [strL "el", strL "la", strL "de", strL "que", strL "y",
   strL "a", strL "en", strL "un", strL "es", strL "se"]

/-- Lines 170-187: the toy language detector. -/
def langDetectionDict (words : List Str) : Dict :=
  let english_count := words.countP (fun w => decide (w ∈ englishWords))
  let spanish_count := words.countP (fun w => decide (w ∈ spanishWords))
  if spanish_count < english_count then
    [("detected_language", JVal.str (strL "English")),
     ("confidence", JVal.str (strL "Low"))]
  else if english_count < spanish_count then
    [("detected_language", JVal.str (strL "Spanish")),
     ("confidence", JVal.str (strL "Low"))]
  else
    [("detected_language", JVal.str (strL "Unknown")),
     ("confidence", JVal.str (strL "Very Low"))]

/-- The eight-word positive lexicon of lines 194-203. -/
def positiveWords : List Str :=
  [strL "good", strL "great", strL "excellent", strL "amazing",
   strL "wonderful", strL "fantastic", strL "love", strL "happy"]

/-- The eight-word negative lexicon of lines 204-213. -/
def negativeWords : List Str :=
  [strL "bad", strL "terrible", strL "awful", strL "hate",
   strL "sad", strL "angry", strL "disappointed", strL "horrible"]

/-- Lines 215-229: the toy sentiment classifier. -/
def sentimentDict (words : List Str) : Dict :=
  let positive_count := words.countP (fun w => decide (w ∈ positiveWords))
  let negative_count := words.countP (fun w => decide (w ∈ negativeWords))
  let sentiment :=
    if negative_count < positive_count then strL "Positive"
    else if positive_count < negative_count then strL "Negative"
    else strL "Neutral"
  [("sentiment", JVal.str sentiment),
   ("positive_words_count", JVal.nat positive_count),
   ("negative_words_count", JVal.nat negative_count)]

/-- `analyze_text(text, options)` (lines 11-231).  An absent `options`
argument is the empty mapping; an absent or empty `text` is `[]`.  The
four mandatory sections are inserted first, in order, then the two
optional sections when their flags are truthy. -/
def analyze_text (text : Str) (options : OptDict) : Dict :=
  if text = [] then [("error", JVal.str (strL "Text cannot be empty"))]
  else
    let words := wordsOf text
    [("basic_stats", JVal.dict (basicStatsDict text)),
     ("word_analysis", JVal.dict (wordAnalysisDict words (topCountOf options))),
     ("character_analysis", JVal.dict (charAnalysisDict text)),
     ("readability", JVal.dict (readabilityDict words (sentenceList text)))]
    ++ (if flagOf "include_language_detection" options then
          [("language_detection", JVal.dict (langDetectionDict words))] else [])
    ++ (if flagOf "include_sentiment" options then
          [("sentiment_analysis", JVal.dict (sentimentDict words))] else [])

/-! ### Field access for stating claims -/

/-- The association list of a section of the result, when present and
dictionary-shaped. -/
def getSection (r : Dict) (k : String) : Option (List (String × JVal)) :=
  match r.lookup k with
  | some (JVal.dict d) => some d
  | _ => none

/-- A field of a section of the result. -/
def getField (r : Dict) (sec f : String) : Option JVal :=
  match getSection r sec with
  | some d => d.lookup f
  | none => none

/-- A natural-number field of a section. -/
def fieldNat (r : Dict) (sec f : String) : Option Nat :=
  match getField r sec f with
  | some (JVal.nat n) => some n
  | _ => none

/-- A rational (Python float) field of a section. -/
def fieldRat (r : Dict) (sec f : String) : Option ℚ :=
  match getField r sec f with
  | some (JVal.rat q) => some q
  | _ => none

/-- A string field of a section. -/
def fieldStr (r : Dict) (sec f : String) : Option Str :=
  match getField r sec f with
  | some (JVal.str s) => some s
  | _ => none

/-- A word-frequency-list field of a section. -/
def fieldWordPairs (r : Dict) (sec f : String) : Option (List (Str × Nat)) :=
  match getField r sec f with
  | some (JVal.wordPairs l) => some l
  | _ => none

/-- A letter-frequency-list field of a section. -/
def fieldCharPairs (r : Dict) (sec f : String) : Option (List (Char × Nat)) :=
  match getField r sec f with
  | some (JVal.charPairs l) => some l
  | _ => none

/-! ### Rendering, for `format_analysis_report`

The report interpolates values into f-strings.  Integers render in
decimal, exactly as in Python.  Floats are modelled as exact rationals;
their `str()` rendering is modelled as the terminating decimal expansion
(trailing zeros trimmed, at least one fractional digit), which agrees
with Python on the values the analyzer produces except that Python
prints the shortest repr of the underlying binary double.  No claim
below depends on the digits of a float rendering. -/

/-- Decimal rendering of a natural number. -/
def natRepr (n : Nat) : Str := (toString n).toList

/-- Decimal rendering of an integer. -/
def intRepr (n : ℤ) : Str := (toString n).toList

/-- Abstract model of Python `str()` on a float (see section comment). -/
def ratRepr (q : ℚ) : Str :=
  match (List.range 30).find? (fun k => decide ((10 ^ k) % q.den = 0)) with
  | some k =>
    let sign : Str := if q.num < 0 then ['-'] else []
    let scaled : Nat := q.num.natAbs * 10 ^ k / q.den
    let ip := scaled / 10 ^ k
    let fp := scaled % 10 ^ k
    let fracRaw : Str :=
      if k = 0 then []
      else List.replicate (k - (natRepr fp).length) '0' ++ natRepr fp
    let frac := (fracRaw.reverse.dropWhile (fun c => c = '0')).reverse
    sign ++ natRepr ip ++ ['.'] ++ (if frac = [] then ['0'] else frac)
  | none => strL "0.0"  -- unreachable for values produced by the analyzer

/-- Two decimal digits, zero-padded. -/
def pad2 (n : Nat) : Str := if n < 10 then '0' :: natRepr n else natRepr n

/-- Model of the f-string format `{x:.2f}`: fixed-point with two
decimals, rounding half to even. -/
def fmt2 (q : ℚ) : Str :=
  let n := roundHalfEven (q * 100)
  let sign : Str := if n < 0 then ['-'] else []
  sign ++ natRepr (n.natAbs / 100) ++ ['.'] ++ pad2 (n.natAbs % 100)

/-- `{value:.2f}` succeeds on ints and floats and raises on other
values, modelled by `none`. -/
def jFmt2 : JVal → Option Str
  | JVal.nat n => some (fmt2 (n : ℚ))
  | JVal.rat q => some (fmt2 q)
  | _ => none

/-- Model of Python `str()` on the values the report interpolates.
Lists of `(item, count)` pairs render as Python renders a list of
tuples.  A nested dictionary value never occurs inside a section of an
analysis result, so its rendering is abstracted to empty braces. -/
def pyStrOf : JVal → Str
  | JVal.nat n => natRepr n
  | JVal.rat q => ratRepr q
  | JVal.str s => s
  | JVal.wordPairs l =>
    '[' :: List.intercalate (strL ", ")
      (l.map (fun p => strL "('" ++ p.1 ++ strL "', " ++ natRepr p.2 ++ strL ")")) ++ [']']
  | JVal.charPairs l =>
    '[' :: List.intercalate (strL ", ")
      (l.map (fun p => strL "('" ++ [p.1] ++ strL "', " ++ natRepr p.2 ++ strL ")")) ++ [']']
  | JVal.dict _ => [Char.ofNat 123, Char.ofNat 125]

/-- `dict.get(key, 0)`. -/
def dGet (d : List (String × JVal)) (k : String) : JVal :=
  match d.lookup k with
  | some v => v
  | none => JVal.nat 0

/-- Replace underscores by spaces: `key.replace("_", " ")`. -/
def underscoreToSpace (s : Str) : Str :=
  s.map (fun c => if c = '_' then ' ' else c)

/-- ASCII model of Python `str.title()`: upper-case every letter that
does not follow a letter, lower-case every letter that does. -/
def pyTitleAux : Bool → Str → Str
  | _, [] => []
  | prevAlpha, c :: rest =>
    (if asciiIsAlpha c then (if prevAlpha then pyToLower c else pyToUpper c) else c)
      :: pyTitleAux (asciiIsAlpha c) rest

/-- `key.replace("_", " ").title()` is `pyTitle (underscoreToSpace key)`. -/
def pyTitle (s : Str) : Str := pyTitleAux false s

/-! ### The report blocks

`format_analysis_report` (lines 234-337) builds a list of lines and
joins them with newlines.  The source file's header strings contain
literal mojibake characters (for example U+F8FF U+00FC U+00EC U+00E4
before `BASIC STATISTICS:`), reproduced here exactly.  Each block
renders only if its section key is present; a section value of an
unexpected shape would raise in Python, modelled by `none`. -/

/-- The bullet prefix `"  ‚Ä¢ "` exactly as in the source. -/
def bulletP : Str := strL "  ‚Ä¢ "

/-- Line 244: the title line, with its embedded newline. -/
def titleLine : Str := strL "=== TEXT ANALYSIS REPORT ===\n"

/-- Lines 246-262: the basic statistics block.  The `Total Words` line
reads `analysis_result.get('word_analysis', {}).get('total_words', 0)`. -/
def basicStatsBlock (analysis_result : Dict) : Option (List Str) :=
  match analysis_result.lookup "basic_stats" with
  | none => some []
  | some (JVal.dict stats) =>
    (match analysis_result.lookup "word_analysis" with
     | none => some (JVal.nat 0)
     | some (JVal.dict wa) => some (dGet wa "total_words")
     | some _ => none).map (fun tw =>
      [strL "üìä BASIC STATISTICS:",
       bulletP ++ strL "Total Characters: " ++ pyStrOf (dGet stats "total_characters"),
       bulletP ++ strL "Characters (no spaces): " ++ pyStrOf (dGet stats "total_characters_no_spaces"),
       bulletP ++ strL "Total Words: " ++ pyStrOf tw,
       bulletP ++ strL "Total Sentences: " ++ pyStrOf (dGet stats "total_sentences"),
       bulletP ++ strL "Total Paragraphs: " ++ pyStrOf (dGet stats "total_paragraphs"),
       strL ""])
  | some _ => none

/-- Lines 264-289: the word analysis block; each field renders only if
present. -/
def wordAnalysisBlock (analysis_result : Dict) : Option (List Str) :=
  match analysis_result.lookup "word_analysis" with
  | none => some []
  | some (JVal.dict word_stats) => do
    let awl ← match word_stats.lookup "average_word_length" with
      | none => pure []
      | some v => (jFmt2 v).map (fun s => [bulletP ++ strL "Average Word Length: " ++ s])
    let lw : List Str := match word_stats.lookup "longest_word" with
      | none => []
      | some v => [bulletP ++ strL "Longest Word: '" ++ pyStrOf v ++ strL "'"]
    let sw : List Str := match word_stats.lookup "shortest_word" with
      | none => []
      | some v => [bulletP ++ strL "Shortest Word: '" ++ pyStrOf v ++ strL "'"]
    let ld ← match word_stats.lookup "lexical_diversity" with
      | none => pure []
      | some v => (jFmt2 v).map (fun s => [bulletP ++ strL "Lexical Diversity: " ++ s])
    let mcw ← match word_stats.lookup "most_common_words" with
      | none => pure []
      | some (JVal.wordPairs ps) =>
        pure ((bulletP ++ strL "Most Common Words:") ::
              ps.map (fun p => strL "    - '" ++ p.1 ++ strL "': " ++ natRepr p.2))
      | some _ => none
    pure (strL "üìù WORD ANALYSIS:" ::
          (awl ++ lw ++ sw ++ ld ++ mcw ++ [strL ""]))
  | some _ => none

/-- Lines 295-302: the per-item loop of the character analysis block;
`most_common_letters` renders as a sub-list, every other key by
underscore-to-space and title-casing. -/
def charItemLines : List (String × JVal) → Option (List Str)
  | [] => some []
  | (key, value) :: rest =>
    (charItemLines rest).bind (fun rs =>
      if key = "most_common_letters" then
        match value with
        | JVal.charPairs ps =>
          some (((bulletP ++ strL "Most Common Letters:") ::
                 ps.map (fun p => strL "    - '" ++ [p.1] ++ strL "': " ++ natRepr p.2)) ++ rs)
        | JVal.wordPairs ps =>
          some (((bulletP ++ strL "Most Common Letters:") ::
                 ps.map (fun p => strL "    - '" ++ p.1 ++ strL "': " ++ natRepr p.2)) ++ rs)
        | _ => none
      else
        some ((bulletP ++ pyTitle (underscoreToSpace key.toList) ++ strL ": " ++ pyStrOf value) :: rs))

/-- Lines 291-304: the character analysis block. -/
def charAnalysisBlock (analysis_result : Dict) : Option (List Str) :=
  match analysis_result.lookup "character_analysis" with
  | none => some []
  | some (JVal.dict char_stats) =>
    (charItemLines char_stats).map (fun ls =>
      strL "üî§ CHARACTER ANALYSIS:" :: (ls ++ [strL ""]))
  | some _ => none

/-- Lines 306-314: the readability block; every key renders by
underscore-to-space and title-casing. -/
def readabilityBlock (analysis_result : Dict) : Option (List Str) :=
  match analysis_result.lookup "readability" with
  | none => some []
  | some (JVal.dict readability) =>
    some (strL "üìñ READABILITY:" ::
          (readability.map (fun kv =>
            bulletP ++ pyTitle (underscoreToSpace kv.1.toList) ++ strL ": " ++ pyStrOf kv.2)
           ++ [strL ""]))
  | some _ => none

/-- Lines 316-323: the language detection block; the two fields are
accessed by subscript, raising (`none`) when absent. -/
def languageBlock (analysis_result : Dict) : Option (List Str) :=
  match analysis_result.lookup "language_detection" with
  | none => some []
  | some (JVal.dict lang_info) => do
    let v1 ← lang_info.lookup "detected_language"
    let v2 ← lang_info.lookup "confidence"
    pure [strL "üåê LANGUAGE DETECTION:",
          bulletP ++ strL "Detected Language: " ++ pyStrOf v1,
          bulletP ++ strL "Confidence: " ++ pyStrOf v2,
          strL ""]
  | some _ => none

/-- Lines 325-335: the sentiment analysis block. -/
def sentimentBlock (analysis_result : Dict) : Option (List Str) :=
  match analysis_result.lookup "sentiment_analysis" with
  | none => some []
  | some (JVal.dict sentiment) => do
    let v1 ← sentiment.lookup "sentiment"
    let v2 ← sentiment.lookup "positive_words_count"
    let v3 ← sentiment.lookup "negative_words_count"
    pure [strL "üòä SENTIMENT ANALYSIS:",
          bulletP ++ strL "Overall Sentiment: " ++ pyStrOf v1,
          bulletP ++ strL "Positive Words: " ++ pyStrOf v2,
          bulletP ++ strL "Negative Words: " ++ pyStrOf v3,
          strL ""]
  | some _ => none

/-- The list of report lines, in the fixed block order of the source. -/
def reportLines (analysis_result : Dict) : Option (List Str) := do
  let b1 ← basicStatsBlock analysis_result
  let b2 ← wordAnalysisBlock analysis_result
  let b3 ← charAnalysisBlock analysis_result
  let b4 ← readabilityBlock analysis_result
  let b5 ← languageBlock analysis_result
  let b6 ← sentimentBlock analysis_result
  pure (titleLine :: (b1 ++ b2 ++ b3 ++ b4 ++ b5 ++ b6))

/-- `format_analysis_report(analysis_result)` (lines 234-337): the error
short-circuit of lines 240-241, otherwise the joined report.  `none`
models an exception on a malformed result. -/
def format_analysis_report (analysis_result : Dict) : Option Str :=
  match analysis_result.lookup "error" with
  | some v => some (strL "Error: " ++ pyStrOf v)
  | none =>
    match reportLines analysis_result with
    | some ls => some (List.intercalate (strL "\n") ls)
    | none => none

/-- A report line that is one of the six section headers: exactly the
lines that begin with a non-ASCII character. -/
def isHeaderLine (l : Str) : Bool :=
  match l with
  | [] => false
  | c :: _ => decide (128 ≤ c.toNat)

/-! ### Specification-side definitions

These are written from the specification's wording, to be compared with
the definitions translated from the source. -/

/-- The specification's clamp of a score into `[0, 100]`. -/
def specClamp (q : ℚ) : ℚ := max 0 (min 100 q)

/-- The number of occurrences of `a` in `l` (the count stored by the
frequency table). -/
def countOcc {α : Type} [DecidableEq α] (a : α) (l : List α) : Nat := l.count a

/-- The claimed word notion of C2: a maximal run of ASCII letters. -/
def letterRunCount (text : Str) : Nat := (maximalRuns asciiIsAlpha text).length

/-- The largest length of a string in the list (`0` for the empty list). -/
def maxLen (l : List Str) : Nat := (l.map List.length).foldr max 0

/-- The smallest length of a string in the list (`0` for the empty list). -/
def minLen : List Str → Nat
  | [] => 0
  | x :: l => (l.map List.length).foldr min x.length

/-- The position of the first occurrence of `a` in `l` (the
first-encountered order used for tie-breaking). -/
def firstPos {α : Type} [DecidableEq α] (a : α) (l : List α) : Nat := l.indexOf a

/-! ### Sanity checks: concrete evaluations of the embedding -/

example : wordsOf (strL "Hello world. This is a test.") =
    [strL "hello", strL "world", strL "this", strL "is", strL "a", strL "test"] := by
  decide

example : wordsOf (strL "abc123") = [] := by decide

example : sentenceList (strL "Hello world. This is a test.") =
    [strL "Hello world", strL "This is a test"] := by decide

example : sentenceList (strL "  ... ") = [] := by decide

example : paragraphList (strL "a\n\n\nb") = [strL "a", strL "b"] := by decide

example :
    fieldNat (analyze_text (strL "Hello world. This is a test.") []) "word_analysis" "total_words"
      = some 6 := by decide

example :
    fieldNat (analyze_text (strL "Hello world. This is a test.") []) "basic_stats" "total_sentences"
      = some 2 := by decide

example :
    fieldNat (analyze_text (strL "Hello world. This is a test.") []) "basic_stats" "total_paragraphs"
      = some 1 := by decide

example :
    fieldWordPairs (analyze_text (strL "b a c a c a") []) "word_analysis" "most_common_words"
      = some [(strL "a", 3), (strL "c", 2), (strL "b", 1)] := by decide

unseal Rat.mul Rat.inv Rat.add Rat.sub Rat.ofScientific in
example :
    fieldRat (analyze_text (strL "ab ab. ab") []) "readability" "flesch_score"
      = some (8687 / 100 : ℚ) := by decide

example : pyTitle (underscoreToSpace (strL "flesch_score")) = strL "Flesch Score" := by decide

example :
    format_analysis_report [("error", JVal.str (strL "X"))] = some (strL "Error: X") := by
  decide

unseal Rat.mul Rat.inv Rat.add Rat.sub Rat.ofScientific in
example :
    ((reportLines (analyze_text (strL "Hi") [])).getD []).filter isHeaderLine =
      [strL "üìä BASIC STATISTICS:", strL "üìù WORD ANALYSIS:",
       strL "üî§ CHARACTER ANALYSIS:", strL "üìñ READABILITY:"] := by
  decide

/-! ## Shape lemmas for the analysis result -/

theorem getSection_basic (text : Str) (options : OptDict) (h : text ≠ []) :
    getSection (analyze_text text options) "basic_stats" = some (basicStatsDict text) := by
  simp only [analyze_text, if_neg h]; rfl

theorem getSection_word (text : Str) (options : OptDict) (h : text ≠ []) :
    getSection (analyze_text text options) "word_analysis"
      = some (wordAnalysisDict (wordsOf text) (topCountOf options)) := by
  simp only [analyze_text, if_neg h]; rfl

theorem getSection_char (text : Str) (options : OptDict) (h : text ≠ []) :
    getSection (analyze_text text options) "character_analysis"
      = some (charAnalysisDict text) := by
  simp only [analyze_text, if_neg h]; rfl

theorem getSection_read (text : Str) (options : OptDict) (h : text ≠ []) :
    getSection (analyze_text text options) "readability"
      = some (readabilityDict (wordsOf text) (sentenceList text)) := by
  simp only [analyze_text, if_neg h]; rfl

/-! ## C1: empty input, and the four mandatory sections -/

/-- C1: for empty (or absent, modelled as empty) `text`, `analyze_text`
returns exactly the single-field mapping `{error: "Text cannot be
empty"}`; for non-empty `text` it returns a result (it is a total
function, so it never raises) containing all four mandatory sections
`basic_stats`, `word_analysis`, `character_analysis`, `readability`. -/
theorem analyze_empty_error_and_sections (text : Str) (options : OptDict) :
    (text = [] →
      analyze_text text options = [("error", JVal.str (strL "Text cannot be empty"))]) ∧
    (text ≠ [] →
      (getSection (analyze_text text options) "basic_stats").isSome = true ∧
      (getSection (analyze_text text options) "word_analysis").isSome = true ∧
      (getSection (analyze_text text options) "character_analysis").isSome = true ∧
      (getSection (analyze_text text options) "readability").isSome = true) := by
  constructor
  · intro h; subst h; rfl
  · intro h
    rw [getSection_basic text options h, getSection_word text options h,
      getSection_char text options h, getSection_read text options h]
    exact ⟨rfl, rfl, rfl, rfl⟩

/-- Witness for C1 at the empty text and at `"a"`. -/
theorem analyze_empty_error_and_sections_witness :
    analyze_text [] [] = [("error", JVal.str (strL "Text cannot be empty"))] ∧
    (getSection (analyze_text (strL "a") []) "basic_stats").isSome = true :=
  ⟨(analyze_empty_error_and_sections [] []).1 rfl,
   ((analyze_empty_error_and_sections (strL "a") []).2 (by decide)).1⟩

/-! ## C9: formatting an error-only result -/

/-- C9: on a result that contains only an `error` field with message
`m`, `format_analysis_report` returns exactly the single line
`"Error: "` followed by `m`. -/
theorem format_error_only (m : Str) :
    format_analysis_report [("error", JVal.str m)] = some (strL "Error: " ++ m) := rfl

/-! ## C8: the character-level counts -/

/-- C8: `total_characters` is the length of the text,
`total_characters_no_spaces` the length after removing space
characters, `punctuation_count` counts exactly the characters in
`. , ! ? ; :`, and `whitespace_count` counts the space-classified
characters. -/
theorem char_count_fields (text : Str) (options : OptDict) (h : text ≠ []) :
    fieldNat (analyze_text text options) "basic_stats" "total_characters"
      = some text.length ∧
    fieldNat (analyze_text text options) "basic_stats" "total_characters_no_spaces"
      = some (text.filter (fun c => decide (c ≠ ' '))).length ∧
    fieldNat (analyze_text text options) "character_analysis" "punctuation_count"
      = some (text.countP (fun c =>
          decide (c = '.' ∨ c = ',' ∨ c = '!' ∨ c = '?' ∨ c = ';' ∨ c = ':'))) ∧
    fieldNat (analyze_text text options) "character_analysis" "whitespace_count"
      = some (text.countP pyIsSpace) := by
  have hpunct : (fun c => decide (c = '.' ∨ c = ',' ∨ c = '!' ∨ c = '?' ∨ c = ';' ∨ c = ':'))
      = isPunctChar := by
    funext c
    simp [isPunctChar, Bool.or_assoc]
  refine ⟨?_, ?_, ?_, ?_⟩
  · simp only [fieldNat, getField, getSection_basic text options h]; rfl
  · simp only [fieldNat, getField, getSection_basic text options h]; rfl
  · simp only [fieldNat, getField, getSection_char text options h, hpunct, charAnalysisDict]
    by_cases hl : lettersOf text = [] <;> simp [hl] <;> rfl
  · simp only [fieldNat, getField, getSection_char text options h, charAnalysisDict]
    by_cases hl : lettersOf text = [] <;> simp [hl] <;> rfl

/-- Witness for C8 at `"Ab 1,2!"`. -/
theorem char_count_fields_witness :
    fieldNat (analyze_text (strL "Ab 1,2!") []) "basic_stats" "total_characters"
      = some (strL "Ab 1,2!").length ∧
    fieldNat (analyze_text (strL "Ab 1,2!") []) "character_analysis" "punctuation_count"
      = some ((strL "Ab 1,2!").countP (fun c =>
          decide (c = '.' ∨ c = ',' ∨ c = '!' ∨ c = '?' ∨ c = ';' ∨ c = ':'))) :=
  ⟨(char_count_fields (strL "Ab 1,2!") [] (by decide)).1,
   (char_count_fields (strL "Ab 1,2!") [] (by decide)).2.2.1⟩

/-! ## Lemmas on `firstOccurrences`, `insertDesc`, `sortDesc` -/

theorem mem_firstOccurrences {α : Type} [DecidableEq α] {a : α} :
    ∀ {l : List α}, a ∈ firstOccurrences l ↔ a ∈ l
  | [] => Iff.rfl
  | b :: l => by
    simp only [firstOccurrences, List.mem_cons, List.mem_filter,
      mem_firstOccurrences (l := l), decide_eq_true_eq]
    by_cases hab : a = b <;> simp [hab]

theorem nodup_firstOccurrences {α : Type} [DecidableEq α] :
    ∀ (l : List α), (firstOccurrences l).Nodup
  | [] => List.nodup_nil
  | b :: l => by
    refine List.Nodup.cons ?_ ((nodup_firstOccurrences l).filter _)
    intro hb
    simp [List.mem_filter] at hb

theorem firstOccurrences_length_le {α : Type} [DecidableEq α] :
    ∀ (l : List α), (firstOccurrences l).length ≤ l.length
  | [] => Nat.le_refl 0
  | b :: l => by
    have h1 := List.length_filter_le (fun x => decide (x ≠ b)) (firstOccurrences l)
    have h2 := firstOccurrences_length_le l
    simpa [firstOccurrences] using Nat.le_trans h1 h2

theorem insertDesc_perm {α : Type} (x : α × Nat) :
    ∀ (l : List (α × Nat)), (insertDesc x l).Perm (x :: l)
  | [] => List.Perm.refl _
  | y :: ys => by
    unfold insertDesc
    split
    · exact List.Perm.refl _
    · exact ((insertDesc_perm x ys).cons y).trans (List.Perm.swap x y ys)

theorem sortDesc_perm {α : Type} : ∀ (l : List (α × Nat)), (sortDesc l).Perm l
  | [] => List.Perm.refl _
  | x :: xs => (insertDesc_perm x (sortDesc xs)).trans ((sortDesc_perm xs).cons x)

theorem mem_most_common {α : Type} [DecidableEq α] {l : List α} {n : Nat}
    {p : α × Nat} (hp : p ∈ most_common l n) : p.1 ∈ l ∧ p.2 = countOcc p.1 l := by
  have h1 : p ∈ sortDesc ((firstOccurrences l).map (fun a => (a, l.count a))) :=
    List.take_subset n _ hp
  have h2 := (sortDesc_perm _).mem_iff.mp h1
  rcases List.mem_map.mp h2 with ⟨a, ha, rfl⟩
  exact ⟨mem_firstOccurrences.mp ha, rfl⟩

theorem most_common_length {α : Type} [DecidableEq α] (l : List α) (n : Nat) :
    (most_common l n).length = min n (firstOccurrences l).length := by
  unfold most_common
  rw [List.length_take, (sortDesc_perm _).length_eq, List.length_map]

/-! ## Lemmas extracting the word-analysis fields -/

theorem fieldNat_total_words (text : Str) (options : OptDict) (h : text ≠ []) :
    fieldNat (analyze_text text options) "word_analysis" "total_words"
      = some (wordsOf text).length := by
  simp only [fieldNat, getField, getSection_word text options h]
  rfl

theorem fieldWordPairs_mcw (text : Str) (options : OptDict) (h : text ≠ [])
    (w : Str) (ws : List Str) (hw : wordsOf text = w :: ws) :
    fieldWordPairs (analyze_text text options) "word_analysis" "most_common_words"
      = some (most_common (w :: ws) (topCountOf options)) := by
  simp only [fieldWordPairs, getField, getSection_word text options h, wordAnalysisDict, hw]
  rfl

theorem fieldRat_awl (text : Str) (options : OptDict) (h : text ≠ [])
    (w : Str) (ws : List Str) (hw : wordsOf text = w :: ws) :
    fieldRat (analyze_text text options) "word_analysis" "average_word_length"
      = some (avgWordLength (w :: ws)) := by
  simp only [fieldRat, getField, getSection_word text options h, wordAnalysisDict, hw]
  rfl

theorem fieldStr_longest (text : Str) (options : OptDict) (h : text ≠ [])
    (w : Str) (ws : List Str) (hw : wordsOf text = w :: ws) :
    fieldStr (analyze_text text options) "word_analysis" "longest_word"
      = some (pyMaxByLen w ws) := by
  simp only [fieldStr, getField, getSection_word text options h, wordAnalysisDict, hw]
  rfl

theorem fieldStr_shortest (text : Str) (options : OptDict) (h : text ≠ [])
    (w : Str) (ws : List Str) (hw : wordsOf text = w :: ws) :
    fieldStr (analyze_text text options) "word_analysis" "shortest_word"
      = some (pyMinByLen w ws) := by
  simp only [fieldStr, getField, getSection_word text options h, wordAnalysisDict, hw]
  rfl

theorem fieldRat_lexdiv (text : Str) (options : OptDict) (h : text ≠ [])
    (w : Str) (ws : List Str) (hw : wordsOf text = w :: ws) :
    fieldRat (analyze_text text options) "word_analysis" "lexical_diversity"
      = some (((firstOccurrences (w :: ws)).length : ℚ) / ((w :: ws).length : ℚ)) := by
  simp only [fieldRat, getField, getSection_word text options h, wordAnalysisDict, hw]
  rfl

/-! ## Lemmas extracting the readability fields -/

theorem text_ne_of_words {text : Str} (hw : wordsOf text ≠ []) : text ≠ [] := by
  intro h; subst h; exact hw rfl

theorem fieldNat_total_sentences (text : Str) (options : OptDict) (h : text ≠ []) :
    fieldNat (analyze_text text options) "basic_stats" "total_sentences"
      = some (sentenceList text).length := by
  simp only [fieldNat, getField, getSection_basic text options h]
  rfl

/-- The clamp of lines 118-121 agrees with the specification's clamp
into `[0, 100]`. -/
theorem clamp_eq (q : ℚ) :
    (if 100 < q then (100 : ℚ) else if q < 0 then 0 else q) = specClamp q := by
  unfold specClamp
  split_ifs with h1 h2
  · rw [min_eq_left h1.le, max_eq_right]; norm_num
  · rw [min_eq_right (by linarith), max_eq_left h2.le]
  · rw [min_eq_right (not_lt.mp h1), max_eq_right (not_lt.mp h2)]

theorem fieldRat_flesch (text : Str) (options : OptDict)
    (hw : wordsOf text ≠ []) (hs : sentenceList text ≠ []) :
    fieldRat (analyze_text text options) "readability" "flesch_score"
      = some (pyRound2 (specClamp ((206.835 : ℚ)
          - (1.015 : ℚ) * (((wordsOf text).length : ℚ) / ((sentenceList text).length : ℚ))
          - (84.6 : ℚ) * (avgWordLength (wordsOf text) * (0.7 : ℚ))))) := by
  rw [← clamp_eq]
  simp only [fieldRat, getField, getSection_read text options (text_ne_of_words hw),
    readabilityDict, if_pos (And.intro (List.length_pos.mpr hs) (List.length_pos.mpr hw))]
  rfl

theorem fieldStr_difficulty (text : Str) (options : OptDict)
    (hw : wordsOf text ≠ []) (hs : sentenceList text ≠ []) :
    fieldStr (analyze_text text options) "readability" "difficulty_level"
      = some (difficultyLevel (specClamp ((206.835 : ℚ)
          - (1.015 : ℚ) * (((wordsOf text).length : ℚ) / ((sentenceList text).length : ℚ))
          - (84.6 : ℚ) * (avgWordLength (wordsOf text) * (0.7 : ℚ))))) := by
  rw [← clamp_eq]
  simp only [fieldStr, getField, getSection_read text options (text_ne_of_words hw),
    readabilityDict, if_pos (And.intro (List.length_pos.mpr hs) (List.length_pos.mpr hw))]
  rfl

/-! ## C3: the Flesch formula and the difficulty thresholds -/

/-- C3: for a text with at least one word and one sentence,
`flesch_score` is `206.835 − 1.015·(total_words/total_sentences) −
84.6·(average_word_length·0.7)`, clamped into `[0,100]` and rounded (to
two decimals, half to even), where `total_words`, `total_sentences` and
`average_word_length` are the fields of the same result; and
`difficulty_level` is obtained from the clamped, unrounded score by the
fixed thresholds of `difficultyLevel` (≥90 Very Easy, ≥80 Easy, ≥70
Fairly Easy, ≥60 Standard, ≥50 Fairly Difficult, ≥30 Difficult, else
Very Difficult). -/
theorem flesch_formula_correct (text : Str) (options : OptDict)
    (hw : wordsOf text ≠ []) (hs : sentenceList text ≠ []) :
    ∃ w s a,
      fieldNat (analyze_text text options) "word_analysis" "total_words" = some w ∧
      fieldNat (analyze_text text options) "basic_stats" "total_sentences" = some s ∧
      fieldRat (analyze_text text options) "word_analysis" "average_word_length" = some a ∧
      fieldRat (analyze_text text options) "readability" "flesch_score"
        = some (pyRound2 (specClamp ((206.835 : ℚ) - (1.015 : ℚ) * ((w : ℚ) / (s : ℚ))
            - (84.6 : ℚ) * (a * (0.7 : ℚ))))) ∧
      fieldStr (analyze_text text options) "readability" "difficulty_level"
        = some (difficultyLevel (specClamp ((206.835 : ℚ) - (1.015 : ℚ) * ((w : ℚ) / (s : ℚ))
            - (84.6 : ℚ) * (a * (0.7 : ℚ))))) := by
  have h := text_ne_of_words hw
  obtain ⟨w0, ws0, hwe⟩ := List.exists_cons_of_ne_nil hw
  refine ⟨(wordsOf text).length, (sentenceList text).length, avgWordLength (wordsOf text),
    fieldNat_total_words text options h, fieldNat_total_sentences text options h, ?_, ?_, ?_⟩
  · rw [hwe]; exact fieldRat_awl text options h w0 ws0 hwe
  · exact fieldRat_flesch text options hw hs
  · exact fieldStr_difficulty text options hw hs

/-- Witness for C3 at `"ab ab. ab"`. -/
theorem flesch_formula_correct_witness :
    ∃ w s a,
      fieldNat (analyze_text (strL "ab ab. ab") []) "word_analysis" "total_words" = some w ∧
      fieldNat (analyze_text (strL "ab ab. ab") []) "basic_stats" "total_sentences" = some s ∧
      fieldRat (analyze_text (strL "ab ab. ab") []) "word_analysis" "average_word_length"
        = some a ∧
      fieldRat (analyze_text (strL "ab ab. ab") []) "readability" "flesch_score"
        = some (pyRound2 (specClamp ((206.835 : ℚ) - (1.015 : ℚ) * ((w : ℚ) / (s : ℚ))
            - (84.6 : ℚ) * (a * (0.7 : ℚ))))) ∧
      fieldStr (analyze_text (strL "ab ab. ab") []) "readability" "difficulty_level"
        = some (difficultyLevel (specClamp ((206.835 : ℚ) - (1.015 : ℚ) * ((w : ℚ) / (s : ℚ))
            - (84.6 : ℚ) * (a * (0.7 : ℚ))))) :=
  flesch_formula_correct (strL "ab ab. ab") [] (by decide) (by decide)

/-! ## C2: what counts as a word -/

/-- C2 counterexample: in `"abc123"` there is exactly one maximal run of
ASCII letters (`"abc"`), but `\b[a-zA-Z]+\b` finds no word there (the
run is followed by a digit, a word character, so its right boundary is
not a word boundary), and `total_words` is `0`. -/
theorem total_words_letter_runs_cex :
    ¬ (fieldNat (analyze_text (strL "abc123") []) "word_analysis" "total_words"
        = some (letterRunCount (strL "abc123"))) := by decide

/-- C2 as amended: `total_words` is the number of maximal runs of word
characters (ASCII letters, digits, underscore) of the lower-cased text
that consist entirely of letters, and each entry of the frequency table
pairs such a (lower-cased) run with its number of occurrences among the
words. -/
theorem total_words_counts_word_runs (text : Str) (options : OptDict) (h : text ≠ []) :
    fieldNat (analyze_text text options) "word_analysis" "total_words"
      = some ((maximalRuns isWordChar (pyLower text)).filter
          (fun r => r.all asciiIsAlpha)).length ∧
    (∀ L, fieldWordPairs (analyze_text text options) "word_analysis" "most_common_words"
        = some L →
      ∀ p ∈ L, p.1 ∈ wordsOf text ∧ p.2 = countOcc p.1 (wordsOf text)) := by
  refine ⟨fieldNat_total_words text options h, ?_⟩
  intro L hL p hp
  rcases hwe : wordsOf text with _ | ⟨w, ws⟩
  · have hnone : fieldWordPairs (analyze_text text options) "word_analysis" "most_common_words"
        = none := by
      simp only [fieldWordPairs, getField, getSection_word text options h,
        wordAnalysisDict, hwe]
      rfl
    rw [hnone] at hL
    exact Option.noConfusion hL
  · rw [fieldWordPairs_mcw text options h w ws hwe] at hL
    obtain rfl : L = most_common (w :: ws) (topCountOf options) := (Option.some.inj hL).symm
    exact mem_most_common hp

/-- Witness for C2 (amended) at `"a b a"`. -/
theorem total_words_counts_word_runs_witness :
    fieldNat (analyze_text (strL "a b a") []) "word_analysis" "total_words"
      = some ((maximalRuns isWordChar (pyLower (strL "a b a"))).filter
          (fun r => r.all asciiIsAlpha)).length :=
  (total_words_counts_word_runs (strL "a b a") [] (by decide)).1

/-! ## C4: the `top_words_count` option -/

theorem firstOccurrences_length_eq_dedup {α : Type} [DecidableEq α] (l : List α) :
    (firstOccurrences l).length = l.dedup.length := by
  have h1 : (firstOccurrences l).toFinset = l.toFinset := by
    ext a
    simp [List.mem_toFinset, mem_firstOccurrences]
  calc (firstOccurrences l).length
      = (firstOccurrences l).toFinset.card :=
        (List.toFinset_card_of_nodup (nodup_firstOccurrences l)).symm
    _ = l.toFinset.card := by rw [h1]
    _ = l.dedup.length := List.card_toFinset l

/-- C4: when the configured `top_words_count` is not an integer or not
positive, `analyze_text` behaves exactly as with the default `5`; and
when it is a positive integer `N`, `most_common_words` has length
`min N (number of distinct words)`. -/
theorem top_words_count_fallback (text : Str) (options : OptDict)
    (hw : wordsOf text ≠ []) :
    (∀ v, options.lookup "top_words_count" = some v →
      (v.asInt = none ∨ ∃ n, v.asInt = some n ∧ n ≤ 0) →
      analyze_text text options
        = analyze_text text (("top_words_count", OptVal.int 5) :: options)) ∧
    (∀ N : Nat, 0 < N → options.lookup "top_words_count" = some (OptVal.int (N : ℤ)) →
      ∃ L, fieldWordPairs (analyze_text text options) "word_analysis" "most_common_words"
          = some L ∧ L.length = min N (wordsOf text).dedup.length) := by
  constructor
  · intro v hv hbad
    have h5 : topCountOf options = 5 := by
      unfold topCountOf
      rw [hv]
      rcases hbad with hnone | ⟨n, hn, hle⟩
      · simp only [hnone]
      · simp only [hn]
        rw [if_neg (by omega)]
    have h5' : topCountOf (("top_words_count", OptVal.int 5) :: options) = 5 := rfl
    simp only [analyze_text, h5, h5']
    rfl
  · intro N hN hvN
    obtain ⟨w0, ws0, hwe⟩ := List.exists_cons_of_ne_nil hw
    refine ⟨most_common (w0 :: ws0) (topCountOf options),
      fieldWordPairs_mcw text options (text_ne_of_words hw) w0 ws0 hwe, ?_⟩
    have htc : topCountOf options = N := by
      unfold topCountOf
      rw [hvN]
      simp only [OptVal.asInt]
      rw [if_pos (by exact_mod_cast hN)]
      exact Int.toNat_natCast N
    rw [most_common_length, htc, firstOccurrences_length_eq_dedup, ← hwe]

/-- Witness for C4: falling back from `"invalid"`, and length exactly
`min 2 2` for `top_words_count = 2` on `"a b a"`. -/
theorem top_words_count_fallback_witness :
    analyze_text (strL "a b a") [("top_words_count", OptVal.str "invalid")]
      = analyze_text (strL "a b a")
          (("top_words_count", OptVal.int 5) :: [("top_words_count", OptVal.str "invalid")]) ∧
    (∃ L, fieldWordPairs (analyze_text (strL "a b a") [("top_words_count", OptVal.int 2)])
        "word_analysis" "most_common_words" = some L ∧
      L.length = min 2 (wordsOf (strL "a b a")).dedup.length) :=
  ⟨(top_words_count_fallback (strL "a b a") [("top_words_count", OptVal.str "invalid")]
      (by decide)).1 (OptVal.str "invalid") rfl (Or.inl rfl),
   (top_words_count_fallback (strL "a b a") [("top_words_count", OptVal.int 2)]
      (by decide)).2 2 (by decide) rfl⟩

/-! ## C6: the range invariants -/

theorem roundHalfEven_nonneg {q : ℚ} (h : 0 ≤ q) : 0 ≤ roundHalfEven q := by
  unfold roundHalfEven
  have h0 : (0 : ℤ) ≤ ⌊q⌋ := Int.floor_nonneg.mpr h
  split_ifs <;> omega

theorem roundHalfEven_le {q : ℚ} {M : ℤ} (h : q ≤ (M : ℚ)) : roundHalfEven q ≤ M := by
  have h1 : ⌊q⌋ ≤ M := by
    have := Int.floor_le_floor h
    rwa [Int.floor_intCast] at this
  have hfl := Int.floor_le q
  unfold roundHalfEven
  split_ifs with hf1 hf2 hev
  · exact h1
  · have hq : (⌊q⌋ : ℚ) < (M : ℚ) := by linarith
    have : ⌊q⌋ < M := by exact_mod_cast hq
    omega
  · exact h1
  · have hnf : (1 / 2 : ℚ) ≤ q - ⌊q⌋ := not_lt.mp hf1
    have hq : (⌊q⌋ : ℚ) < (M : ℚ) := by linarith
    have : ⌊q⌋ < M := by exact_mod_cast hq
    omega

theorem pyRound2_bounds {q : ℚ} (h0 : 0 ≤ q) (h100 : q ≤ 100) :
    0 ≤ pyRound2 q ∧ pyRound2 q ≤ 100 := by
  unfold pyRound2
  have hr0 : 0 ≤ roundHalfEven (q * 100) := roundHalfEven_nonneg (by positivity)
  have hrM : roundHalfEven (q * 100) ≤ (10000 : ℤ) :=
    roundHalfEven_le (by push_cast; linarith)
  constructor
  · apply div_nonneg _ (by norm_num)
    exact_mod_cast hr0
  · rw [div_le_iff₀ (by norm_num : (0 : ℚ) < 100)]
    have h : ((roundHalfEven (q * 100) : ℤ) : ℚ) ≤ (10000 : ℚ) := by exact_mod_cast hrM
    linarith

theorem specClamp_bounds (q : ℚ) : 0 ≤ specClamp q ∧ specClamp q ≤ 100 := by
  unfold specClamp
  exact ⟨le_max_left 0 _, max_le (by norm_num) (min_le_left _ _)⟩

/-- C6: for a text with at least one word and one sentence,
`lexical_diversity` lies in `[0, 1]` and `flesch_score` in `[0, 100]`. -/
theorem diversity_flesch_bounds (text : Str) (options : OptDict)
    (hw : wordsOf text ≠ []) (hs : sentenceList text ≠ []) :
    (∃ q, fieldRat (analyze_text text options) "word_analysis" "lexical_diversity"
        = some q ∧ 0 ≤ q ∧ q ≤ 1) ∧
    (∃ q, fieldRat (analyze_text text options) "readability" "flesch_score"
        = some q ∧ 0 ≤ q ∧ q ≤ 100) := by
  obtain ⟨w0, ws0, hwe⟩ := List.exists_cons_of_ne_nil hw
  constructor
  · refine ⟨_, fieldRat_lexdiv text options (text_ne_of_words hw) w0 ws0 hwe, ?_, ?_⟩
    · apply div_nonneg <;> positivity
    · rw [div_le_one (by exact_mod_cast List.length_pos.mpr (List.cons_ne_nil w0 ws0))]
      exact_mod_cast firstOccurrences_length_le (w0 :: ws0)
  · obtain ⟨hc0, hc100⟩ := specClamp_bounds ((206.835 : ℚ)
      - (1.015 : ℚ) * (((wordsOf text).length : ℚ) / ((sentenceList text).length : ℚ))
      - (84.6 : ℚ) * (avgWordLength (wordsOf text) * (0.7 : ℚ)))
    exact ⟨_, fieldRat_flesch text options hw hs,
      (pyRound2_bounds hc0 hc100).1, (pyRound2_bounds hc0 hc100).2⟩

/-- Witness for C6 at `"ab ab. ab"`. -/
theorem diversity_flesch_bounds_witness :
    (∃ q, fieldRat (analyze_text (strL "ab ab. ab") []) "word_analysis" "lexical_diversity"
        = some q ∧ 0 ≤ q ∧ q ≤ 1) ∧
    (∃ q, fieldRat (analyze_text (strL "ab ab. ab") []) "readability" "flesch_score"
        = some q ∧ 0 ≤ q ∧ q ≤ 100) :=
  diversity_flesch_bounds (strL "ab ab. ab") [] (by decide) (by decide)

/-! ## C10: a word forces a sentence

A word contains a letter; a letter is neither a sentence separator nor
whitespace; a character that is neither a separator nor whitespace
survives the strip, lands in some fragment of the sentence split, and
keeps that fragment non-blank. -/

theorem maximalRuns_single (p : Char → Bool) (c : Char) :
    maximalRuns p [c] = if p c then [[c]] else [] := rfl

theorem maximalRuns_cons_cons (p : Char → Bool) (c d : Char) (rest2 : Str) :
    maximalRuns p (c :: d :: rest2) =
      if p c then
        (if p d then
          match maximalRuns p (d :: rest2) with
          | r :: rs' => (c :: r) :: rs'
          | [] => [[c]]
        else [c] :: maximalRuns p (d :: rest2))
      else maximalRuns p (d :: rest2) := rfl

theorem maximalRuns_spec (p : Char → Bool) (s : Str) :
    ∀ r ∈ maximalRuns p s, r ≠ [] ∧ ∀ c ∈ r, p c = true ∧ c ∈ s := by
  induction s with
  | nil => intro r hr; simp [maximalRuns] at hr
  | cons c rest ih =>
    intro r hr
    have weaken : r ∈ maximalRuns p rest →
        r ≠ [] ∧ ∀ c' ∈ r, p c' = true ∧ c' ∈ c :: rest := fun hm =>
      ⟨(ih r hm).1, fun c' hc' => ⟨((ih r hm).2 c' hc').1,
        List.mem_cons_of_mem c ((ih r hm).2 c' hc').2⟩⟩
    have single_case : p c = true → r = [c] →
        r ≠ [] ∧ ∀ c' ∈ r, p c' = true ∧ c' ∈ c :: rest := by
      intro hp hre
      subst hre
      exact ⟨List.cons_ne_nil c [], fun c' hc' => by
        simp only [List.mem_singleton] at hc'
        subst hc'
        exact ⟨hp, List.mem_cons_self c' rest⟩⟩
    by_cases hp : p c
    · rcases rest with _ | ⟨d, rest2⟩
      · rw [maximalRuns_single, if_pos hp, List.mem_singleton] at hr
        exact single_case hp hr
      · rw [maximalRuns_cons_cons, if_pos hp] at hr
        by_cases hpd : p d
        · rw [if_pos hpd] at hr
          rcases hrs : maximalRuns p (d :: rest2) with _ | ⟨r0, rs'⟩
          · rw [hrs] at hr
            simp only [List.mem_singleton] at hr
            exact single_case hp hr
          · rw [hrs] at hr
            simp only at hr
            rcases List.mem_cons.mp hr with rfl | hmem
            · refine ⟨List.cons_ne_nil c r0, ?_⟩
              intro c' hc'
              rcases List.mem_cons.mp hc' with rfl | hc0
              · exact ⟨hp, List.mem_cons_self c' _⟩
              · have h0 := (ih r0 (hrs ▸ List.mem_cons_self r0 rs')).2 c' hc0
                exact ⟨h0.1, List.mem_cons_of_mem c h0.2⟩
            · exact weaken (hrs ▸ List.mem_cons_of_mem r0 hmem)
        · rw [if_neg hpd] at hr
          rcases List.mem_cons.mp hr with rfl | hmem
          · exact single_case hp rfl
          · exact weaken hmem
    · rcases rest with _ | ⟨d, rest2⟩
      · rw [maximalRuns_single, if_neg hp] at hr
        exact absurd hr (List.not_mem_nil r)
      · rw [maximalRuns_cons_cons, if_neg hp] at hr
        exact weaken hr

theorem sep_toNat {c : Char} (h : isSentenceSep c = true) :
    c.toNat = 46 ∨ c.toNat = 33 ∨ c.toNat = 63 := by
  simp only [isSentenceSep, Bool.or_eq_true, decide_eq_true_eq] at h
  rcases h with (rfl | rfl) | rfl
  · exact Or.inl rfl
  · exact Or.inr (Or.inl rfl)
  · exact Or.inr (Or.inr rfl)

theorem space_toNat {c : Char} (h : pyIsSpace c = true) :
    c.toNat = 32 ∨ c.toNat = 9 ∨ c.toNat = 10 ∨ c.toNat = 13 ∨
    c.toNat = 11 ∨ c.toNat = 12 := by
  simpa only [pyIsSpace, Bool.or_eq_true, decide_eq_true_eq, or_assoc] using h

theorem alpha_toNat {c : Char} (h : asciiIsAlpha c = true) :
    (65 ≤ c.toNat ∧ c.toNat ≤ 90) ∨ (97 ≤ c.toNat ∧ c.toNat ≤ 122) := by
  simpa only [asciiIsAlpha, asciiIsUpper, asciiIsLower, Bool.or_eq_true,
    Bool.and_eq_true, decide_eq_true_eq] using h

/-- A character whose lower-casing is a letter is neither a sentence
separator nor whitespace. -/
theorem char_class_of_alpha_lower {c : Char} (h : asciiIsAlpha (pyToLower c) = true) :
    isSentenceSep c = false ∧ pyIsSpace c = false := by
  have hcn : (65 ≤ c.toNat ∧ c.toNat ≤ 90) ∨ (97 ≤ c.toNat ∧ c.toNat ≤ 122) := by
    unfold pyToLower at h
    by_cases hu : asciiIsUpper c = true
    · exact Or.inl (by simpa only [asciiIsUpper, Bool.and_eq_true, decide_eq_true_eq] using hu)
    · rw [if_neg hu] at h
      exact alpha_toNat h
  constructor
  · rw [Bool.eq_false_iff]
    intro hsep
    rcases sep_toNat hsep with h1 | h1 | h1 <;> rcases hcn with ⟨h2, h3⟩ | ⟨h2, h3⟩ <;> omega
  · rw [Bool.eq_false_iff]
    intro hsp
    rcases space_toNat hsp with h1 | h1 | h1 | h1 | h1 | h1 <;>
      rcases hcn with ⟨h2, h3⟩ | ⟨h2, h3⟩ <;> omega

/-- Any non-empty word list yields a character of the text that is
neither a sentence separator nor whitespace. -/
theorem exists_nonsep_char {text : Str} (hw : wordsOf text ≠ []) :
    ∃ c ∈ text, isSentenceSep c = false ∧ pyIsSpace c = false := by
  rcases hwe : wordsOf text with _ | ⟨w, ws⟩
  · exact absurd hwe hw
  have hwmem : w ∈ wordsOf text := hwe ▸ List.mem_cons_self w ws
  unfold wordsOf at hwmem
  have hfil := List.mem_filter.mp hwmem
  have hspec := maximalRuns_spec isWordChar (pyLower text) w hfil.1
  rcases hwne : w with _ | ⟨c0, w'⟩
  · exact absurd hwne hspec.1
  have hc0run := hspec.2 c0 (hwne ▸ List.mem_cons_self c0 w')
  have hc0alpha : asciiIsAlpha c0 = true := by
    have := hfil.2
    rw [hwne] at this
    exact (List.all_eq_true.mp this) c0 (List.mem_cons_self c0 w')
  obtain ⟨c, hcmem, hc⟩ := List.mem_map.mp hc0run.2
  refine ⟨c, hcmem, char_class_of_alpha_lower ?_⟩
  rw [hc]
  exact hc0alpha

theorem mem_dropWhile_of_mem {p : Char → Bool} {c : Char} :
    ∀ {l : Str}, c ∈ l → p c = false → c ∈ l.dropWhile p := by
  intro l
  induction l with
  | nil => intro hc _; exact absurd hc (List.not_mem_nil c)
  | cons d tl ih =>
    intro hc hp
    rw [List.dropWhile_cons]
    by_cases hd : p d
    · rw [if_pos hd]
      rcases List.mem_cons.mp hc with rfl | hmem
      · rw [hp] at hd; exact absurd hd (by simp)
      · exact ih hmem hp
    · rw [if_neg hd]
      exact hc

theorem mem_pyStrip_of_mem {c : Char} {l : Str} (hc : c ∈ l) (hsp : pyIsSpace c = false) :
    c ∈ pyStrip l := by
  unfold pyStrip
  rw [List.mem_reverse]
  apply mem_dropWhile_of_mem _ hsp
  rw [List.mem_reverse]
  exact mem_dropWhile_of_mem hc hsp

theorem reSplitPlus_single (p : Char → Bool) (c : Char) :
    reSplitPlus p [c] = if p c then [[], []] else [[c]] := rfl

theorem reSplitPlus_cons_cons (p : Char → Bool) (c d : Char) (rest2 : Str) :
    reSplitPlus p (c :: d :: rest2) =
      if p c then
        (if p d then reSplitPlus p (d :: rest2) else [] :: reSplitPlus p (d :: rest2))
      else
        match reSplitPlus p (d :: rest2) with
        | [] => [[c]]
        | f :: fs' => (c :: f) :: fs' := rfl

theorem reSplitPlus_ne_nil (p : Char → Bool) : ∀ (s : Str), reSplitPlus p s ≠ [] := by
  intro s
  induction s with
  | nil => simp [reSplitPlus]
  | cons c rest ih =>
    rcases rest with _ | ⟨d, rest2⟩
    · rw [reSplitPlus_single]
      by_cases hp : p c <;> simp [hp]
    · rw [reSplitPlus_cons_cons]
      by_cases hp : p c
      · rw [if_pos hp]
        by_cases hpd : p d
        · rw [if_pos hpd]; exact ih
        · rw [if_neg hpd]; simp
      · rw [if_neg hp]
        rcases hfs : reSplitPlus p (d :: rest2) with _ | ⟨f, fs'⟩
        · exact absurd hfs ih
        · simp

/-- A non-separator character of `s` lies in some fragment of the
split. -/
theorem mem_frag_reSplitPlus {p : Char → Bool} {c : Char} (hpc : p c = false) :
    ∀ {s : Str}, c ∈ s → ∃ f ∈ reSplitPlus p s, c ∈ f := by
  intro s
  induction s with
  | nil => intro hc; exact absurd hc (List.not_mem_nil c)
  | cons d rest ih =>
    intro hc
    by_cases hd : p d
    · have hcrest : c ∈ rest := by
        rcases List.mem_cons.mp hc with rfl | hm
        · rw [hpc] at hd; exact absurd hd (by simp)
        · exact hm
      rcases rest with _ | ⟨e, rest2⟩
      · exact absurd hcrest (List.not_mem_nil c)
      · rw [reSplitPlus_cons_cons, if_pos hd]
        by_cases he : p e
        · rw [if_pos he]
          exact ih hcrest
        · rw [if_neg he]
          obtain ⟨f, hf, hcf⟩ := ih hcrest
          exact ⟨f, List.mem_cons_of_mem [] hf, hcf⟩
    · rcases rest with _ | ⟨e, rest2⟩
      · rw [reSplitPlus_single, if_neg hd]
        rcases List.mem_cons.mp hc with rfl | hm
        · exact ⟨[c], List.mem_singleton_self [c], List.mem_singleton_self c⟩
        · exact absurd hm (List.not_mem_nil c)
      · rw [reSplitPlus_cons_cons, if_neg hd]
        rcases hfs : reSplitPlus p (e :: rest2) with _ | ⟨f0, fs'⟩
        · exact absurd hfs (reSplitPlus_ne_nil p (e :: rest2))
        · simp only [hfs]
          rcases List.mem_cons.mp hc with rfl | hm
          · exact ⟨c :: f0, List.mem_cons_self _ _, List.mem_cons_self c f0⟩
          · obtain ⟨f, hf, hcf⟩ := ih hm
            rw [hfs] at hf
            rcases List.mem_cons.mp hf with rfl | hf'
            · exact ⟨d :: f, List.mem_cons_self _ _, List.mem_cons_of_mem d hcf⟩
            · exact ⟨f, List.mem_cons_of_mem _ hf', hcf⟩

/-- A text containing a character that is neither a sentence separator
nor whitespace has at least one sentence. -/
theorem sentenceList_ne_nil {text : Str} {c : Char} (hc : c ∈ text)
    (hsep : isSentenceSep c = false) (hsp : pyIsSpace c = false) :
    sentenceList text ≠ [] := by
  have h1 : c ∈ pyStrip text := mem_pyStrip_of_mem hc hsp
  obtain ⟨f, hf, hcf⟩ := mem_frag_reSplitPlus hsep h1
  have h2 : pyStrip f ≠ [] := by
    intro hh
    have := mem_pyStrip_of_mem hcf hsp
    rw [hh] at this
    exact absurd this (List.not_mem_nil c)
  have h3 : pyStrip f ∈ sentenceList text := by
    unfold sentenceList
    exact List.mem_filter.mpr ⟨List.mem_map_of_mem pyStrip hf, by simpa using h2⟩
  intro hnil
  rw [hnil] at h3
  exact absurd h3 (List.not_mem_nil _)

theorem sentences_of_words {text : Str} (hw : wordsOf text ≠ []) :
    sentenceList text ≠ [] := by
  obtain ⟨c, hc, hsep, hsp⟩ := exists_nonsep_char hw
  exact sentenceList_ne_nil hc hsep hsp

/-- C10: if `total_words` is positive then `total_sentences` is
positive, and consequently the `readability` section is non-empty
exactly when the text has at least one word. -/
theorem words_imply_sentences (text : Str) (options : OptDict) (h : text ≠ []) :
    (∀ n, fieldNat (analyze_text text options) "word_analysis" "total_words" = some n →
      0 < n →
      ∃ m, fieldNat (analyze_text text options) "basic_stats" "total_sentences" = some m ∧
        0 < m) ∧
    (∃ d, getSection (analyze_text text options) "readability" = some d ∧
      (d ≠ [] ↔ 0 < (wordsOf text).length)) := by
  constructor
  · intro n hn hpos
    have hn' : n = (wordsOf text).length :=
      Option.some.inj ((fieldNat_total_words text options h).symm.trans hn).symm
    have hw : wordsOf text ≠ [] := by
      rw [← List.length_pos]
      omega
    refine ⟨(sentenceList text).length, fieldNat_total_sentences text options h, ?_⟩
    exact List.length_pos.mpr (sentences_of_words hw)
  · refine ⟨readabilityDict (wordsOf text) (sentenceList text),
      getSection_read text options h, ?_⟩
    unfold readabilityDict
    by_cases hw : 0 < (wordsOf text).length
    · have hs : 0 < (sentenceList text).length :=
        List.length_pos.mpr (sentences_of_words (List.length_pos.mp hw))
      rw [if_pos ⟨hs, hw⟩]
      simp [hw]
    · rw [if_neg (by tauto)]
      simp [hw]

/-- Witness for C10 at `"Hi"`. -/
theorem words_imply_sentences_witness :
    (∃ m, fieldNat (analyze_text (strL "Hi") []) "basic_stats" "total_sentences" = some m ∧
      0 < m) ∧
    (∃ d, getSection (analyze_text (strL "Hi") []) "readability" = some d ∧
      (d ≠ [] ↔ 0 < (wordsOf (strL "Hi")).length)) :=
  ⟨(words_imply_sentences (strL "Hi") [] (by decide)).1 1 (by decide) (by decide),
   (words_imply_sentences (strL "Hi") [] (by decide)).2⟩

/-! ## C5: ties go to the first-encountered candidate -/

theorem insertDesc_pairwise {α : Type} (idx : α × Nat → Nat) (x : α × Nat) :
    ∀ (L : List (α × Nat)),
      L.Pairwise (fun a b => b.2 < a.2 ∨ (a.2 = b.2 ∧ idx a < idx b)) →
      (∀ y ∈ L, idx x < idx y) →
      (insertDesc x L).Pairwise (fun a b => b.2 < a.2 ∨ (a.2 = b.2 ∧ idx a < idx b)) := by
  intro L
  induction L with
  | nil => intro _ _; exact List.pairwise_singleton _ x
  | cons y ys ih =>
    intro hL hidx
    rw [insertDesc]
    by_cases hc : y.2 ≤ x.2
    · rw [if_pos hc]
      refine List.Pairwise.cons ?_ hL
      intro z hz
      rcases List.mem_cons.mp hz with rfl | hzys
      · rcases Nat.lt_or_ge z.2 x.2 with hlt | hge
        · exact Or.inl hlt
        · exact Or.inr ⟨Nat.le_antisymm hge hc, hidx z (List.mem_cons_self z ys)⟩
      · have hyz := List.rel_of_pairwise_cons hL hzys
        rcases hyz with h1 | ⟨h1, h2⟩
        · exact Or.inl (Nat.lt_of_lt_of_le h1 hc)
        · rcases Nat.lt_or_ge z.2 x.2 with hlt | hge
          · exact Or.inl hlt
          · exact Or.inr ⟨by omega, hidx z (List.mem_cons_of_mem y hzys)⟩
    · rw [if_neg hc]
      refine List.Pairwise.cons ?_
        (ih (List.pairwise_cons.mp hL).2 (fun z hz => hidx z (List.mem_cons_of_mem y hz)))
      intro z hz
      have hz' := (insertDesc_perm x ys).mem_iff.mp hz
      rcases List.mem_cons.mp hz' with rfl | hzys
      · exact Or.inl (Nat.lt_of_not_le hc)
      · exact List.rel_of_pairwise_cons hL hzys

theorem sortDesc_pairwise {α : Type} (idx : α × Nat → Nat) :
    ∀ (l : List (α × Nat)), l.Pairwise (fun a b => idx a < idx b) →
      (sortDesc l).Pairwise (fun a b => b.2 < a.2 ∨ (a.2 = b.2 ∧ idx a < idx b))
  | [], _ => List.Pairwise.nil
  | x :: xs, h => by
    refine insertDesc_pairwise idx x (sortDesc xs)
      (sortDesc_pairwise idx xs (List.pairwise_cons.mp h).2) ?_
    intro y hy
    exact (List.pairwise_cons.mp h).1 y ((sortDesc_perm xs).mem_iff.mp hy)

theorem firstOccurrences_pairwise_firstPos {α : Type} [DecidableEq α] :
    ∀ (l : List α),
      (firstOccurrences l).Pairwise (fun a b => firstPos a l < firstPos b l)
  | [] => List.Pairwise.nil
  | x :: l => by
    simp only [firstOccurrences]
    refine List.Pairwise.cons ?_ ?_
    · intro b hb
      have hbx : b ≠ x := by simpa using (List.mem_filter.mp hb).2
      unfold firstPos
      rw [List.indexOf_cons_self, List.indexOf_cons_ne l (Ne.symm hbx)]
      exact Nat.succ_pos _
    · have hp := (firstOccurrences_pairwise_firstPos l).filter (fun b => decide (b ≠ x))
      refine List.Pairwise.imp_of_mem ?_ hp
      intro a b ha hb hab
      have hax : a ≠ x := by simpa using (List.mem_filter.mp ha).2
      have hbx : b ≠ x := by simpa using (List.mem_filter.mp hb).2
      unfold firstPos at hab ⊢
      rw [List.indexOf_cons_ne l (Ne.symm hax), List.indexOf_cons_ne l (Ne.symm hbx)]
      exact Nat.succ_lt_succ hab

/-- The frequency pairs of `most_common` are ordered by strictly
descending count, with ties in the order of first occurrence. -/
theorem most_common_pairwise {α : Type} [DecidableEq α] (l : List α) (n : Nat) :
    (most_common l n).Pairwise
      (fun a b => b.2 < a.2 ∨ (a.2 = b.2 ∧ firstPos a.1 l < firstPos b.1 l)) := by
  have h1 : ((firstOccurrences l).map (fun a => (a, l.count a))).Pairwise
      (fun a b => firstPos a.1 l < firstPos b.1 l) :=
    List.pairwise_map.mpr (firstOccurrences_pairwise_firstPos l)
  have h2 := sortDesc_pairwise (fun p => firstPos p.1 l) _ h1
  unfold most_common
  exact List.Pairwise.sublist (List.take_sublist _ _) h2

theorem maxLen_cons (x : Str) (l : List Str) :
    maxLen (x :: l) = max x.length (maxLen l) := rfl

theorem pyMaxByLen_step (x y : Str) (ys : List Str) :
    pyMaxByLen x (y :: ys) = pyMaxByLen (if x.length < y.length then y else x) ys := rfl

/-- `max(words, key=len)` returns the first element of maximal length. -/
theorem pyMaxByLen_find : ∀ (l : List Str) (x : Str),
    some (pyMaxByLen x l) = (x :: l).find? (fun w => decide (w.length = maxLen (x :: l)))
  | [], x => by
    have hx : maxLen [x] = x.length := by simp [maxLen]
    rw [List.find?_cons_of_pos [] (by simp [hx])]
    rfl
  | y :: ys, x => by
    rw [pyMaxByLen_step]
    by_cases hxy : x.length < y.length
    · rw [if_pos hxy, pyMaxByLen_find ys y]
      have hyV : y.length ≤ maxLen (y :: ys) := by
        rw [maxLen_cons]; exact le_max_left _ _
      have hV : maxLen (x :: y :: ys) = maxLen (y :: ys) := by
        rw [maxLen_cons x (y :: ys)]
        exact max_eq_right (le_trans (le_of_lt hxy) hyV)
      rw [List.find?_cons_of_neg (y :: ys)
        (by simp only [decide_eq_true_eq, hV]; omega), hV]
    · rw [if_neg hxy, pyMaxByLen_find ys x]
      have hyx : y.length ≤ x.length := Nat.le_of_not_lt hxy
      have hxW : x.length ≤ maxLen (x :: ys) := by
        rw [maxLen_cons]; exact le_max_left _ _
      have hV : maxLen (x :: y :: ys) = maxLen (x :: ys) := by
        rw [maxLen_cons x (y :: ys), maxLen_cons y ys, maxLen_cons x ys,
          ← max_assoc, max_eq_left hyx]
      by_cases hpx : x.length = maxLen (x :: ys)
      · rw [List.find?_cons_of_pos (y :: ys) (by simp [hV, hpx]),
          List.find?_cons_of_pos ys (by simp [hpx])]
      · rw [List.find?_cons_of_neg (y :: ys)
          (by simp only [decide_eq_true_eq, hV]; exact hpx)]
        rw [List.find?_cons_of_neg ys (by simp only [decide_eq_true_eq]; exact hpx)]
        rw [List.find?_cons_of_neg ys
          (by simp only [decide_eq_true_eq, hV]; intro hyW; exact hpx (by omega)), hV]

theorem minLen_single (x : Str) : minLen [x] = x.length := rfl

theorem minLen_cons_cons (x y : Str) (ys : List Str) :
    minLen (x :: y :: ys) = min y.length (minLen (x :: ys)) := rfl

theorem foldr_min_base {a b : Nat} (h : a ≤ b) :
    ∀ (L : List Nat), min a (L.foldr min b) = L.foldr min a
  | [] => min_eq_left h
  | c :: L' => by
    rw [List.foldr_cons, List.foldr_cons, ← foldr_min_base h L', min_left_comm]

theorem foldr_min_le_base (b : Nat) : ∀ (L : List Nat), L.foldr min b ≤ b
  | [] => le_refl b
  | c :: L' => le_trans (min_le_right c _) (foldr_min_le_base b L')

theorem pyMinByLen_step (x y : Str) (ys : List Str) :
    pyMinByLen x (y :: ys) = pyMinByLen (if y.length < x.length then y else x) ys := rfl

/-- `min(words, key=len)` returns the first element of minimal length. -/
theorem pyMinByLen_find : ∀ (l : List Str) (x : Str),
    some (pyMinByLen x l) = (x :: l).find? (fun w => decide (w.length = minLen (x :: l)))
  | [], x => by
    rw [List.find?_cons_of_pos [] (by simp [minLen_single])]
    rfl
  | y :: ys, x => by
    rw [pyMinByLen_step]
    by_cases hyx : y.length < x.length
    · rw [if_pos hyx, pyMinByLen_find ys y]
      have hV : minLen (x :: y :: ys) = minLen (y :: ys) := by
        show min y.length ((ys.map List.length).foldr min x.length)
          = (ys.map List.length).foldr min y.length
        exact foldr_min_base (le_of_lt hyx) _
      have hVle : minLen (y :: ys) ≤ y.length := foldr_min_le_base _ _
      rw [List.find?_cons_of_neg (y :: ys)
        (by simp only [decide_eq_true_eq, hV]; omega), hV]
    · rw [if_neg hyx, pyMinByLen_find ys x]
      have hxy : x.length ≤ y.length := Nat.le_of_not_lt hyx
      have hWle : minLen (x :: ys) ≤ x.length := foldr_min_le_base _ _
      have hV : minLen (x :: y :: ys) = minLen (x :: ys) := by
        rw [minLen_cons_cons]
        exact min_eq_right (le_trans hWle hxy)
      by_cases hpx : x.length = minLen (x :: ys)
      · rw [List.find?_cons_of_pos (y :: ys) (by simp [hV, hpx]),
          List.find?_cons_of_pos ys (by simp [hpx])]
      · rw [List.find?_cons_of_neg (y :: ys)
          (by simp only [decide_eq_true_eq, hV]; exact hpx)]
        rw [List.find?_cons_of_neg ys (by simp only [decide_eq_true_eq]; exact hpx)]
        rw [List.find?_cons_of_neg ys
          (by simp only [decide_eq_true_eq, hV]; intro hyW; exact hpx (by omega)), hV]

theorem lettersOf_ne_of_words {text : Str} (hw : wordsOf text ≠ []) :
    lettersOf text ≠ [] := by
  rcases hwe : wordsOf text with _ | ⟨w, ws⟩
  · exact absurd hwe hw
  have hwmem : w ∈ wordsOf text := hwe ▸ List.mem_cons_self w ws
  unfold wordsOf at hwmem
  have hfil := List.mem_filter.mp hwmem
  have hspec := maximalRuns_spec isWordChar (pyLower text) w hfil.1
  rcases hwne : w with _ | ⟨c0, w'⟩
  · exact absurd hwne hspec.1
  have hc0run := hspec.2 c0 (hwne ▸ List.mem_cons_self c0 w')
  have hc0alpha : asciiIsAlpha c0 = true := by
    have hall := hfil.2
    rw [hwne] at hall
    exact (List.all_eq_true.mp hall) c0 (List.mem_cons_self c0 w')
  intro hnil
  have hmem : c0 ∈ lettersOf text := List.mem_filter.mpr ⟨hc0run.2, hc0alpha⟩
  rw [hnil] at hmem
  exact absurd hmem (List.not_mem_nil c0)

theorem fieldCharPairs_mcl (text : Str) (options : OptDict) (h : text ≠ [])
    (hl : lettersOf text ≠ []) :
    fieldCharPairs (analyze_text text options) "character_analysis" "most_common_letters"
      = some (most_common (lettersOf text) 5) := by
  simp only [fieldCharPairs, getField, getSection_char text options h,
    charAnalysisDict, if_neg hl]
  rfl

/-- C5: every tie-broken selection favours the first-encountered
candidate: `most_common_words` is ordered by strictly descending count
with ties in first-occurrence order of the words; `most_common_letters`
likewise for the lower-cased letters; `longest_word` and
`shortest_word` are the first word attaining the maximal (resp.
minimal) length in scan order. -/
theorem first_encounter_tie_break (text : Str) (options : OptDict)
    (hw : wordsOf text ≠ []) :
    (∃ L, fieldWordPairs (analyze_text text options) "word_analysis" "most_common_words"
        = some L ∧
      L.Pairwise (fun a b => b.2 < a.2 ∨
        (a.2 = b.2 ∧ firstPos a.1 (wordsOf text) < firstPos b.1 (wordsOf text)))) ∧
    (∃ P, fieldCharPairs (analyze_text text options) "character_analysis"
        "most_common_letters" = some P ∧
      P.Pairwise (fun a b => b.2 < a.2 ∨
        (a.2 = b.2 ∧ firstPos a.1 (lettersOf text) < firstPos b.1 (lettersOf text)))) ∧
    fieldStr (analyze_text text options) "word_analysis" "longest_word"
      = (wordsOf text).find? (fun w => decide (w.length = maxLen (wordsOf text))) ∧
    fieldStr (analyze_text text options) "word_analysis" "shortest_word"
      = (wordsOf text).find? (fun w => decide (w.length = minLen (wordsOf text))) := by
  have h := text_ne_of_words hw
  obtain ⟨w0, ws0, hwe⟩ := List.exists_cons_of_ne_nil hw
  refine ⟨⟨most_common (w0 :: ws0) (topCountOf options),
      fieldWordPairs_mcw text options h w0 ws0 hwe, ?_⟩,
    ⟨most_common (lettersOf text) 5,
      fieldCharPairs_mcl text options h (lettersOf_ne_of_words hw), ?_⟩, ?_, ?_⟩
  · rw [hwe]
    exact most_common_pairwise (w0 :: ws0) (topCountOf options)
  · exact most_common_pairwise (lettersOf text) 5
  · rw [fieldStr_longest text options h w0 ws0 hwe, hwe]
    exact pyMaxByLen_find ws0 w0
  · rw [fieldStr_shortest text options h w0 ws0 hwe, hwe]
    exact pyMinByLen_find ws0 w0

/-- Witness for C5 at `"b ab a b"`. -/
theorem first_encounter_tie_break_witness :
    (∃ L, fieldWordPairs (analyze_text (strL "b ab a b") []) "word_analysis"
        "most_common_words" = some L ∧
      L.Pairwise (fun a b => b.2 < a.2 ∨
        (a.2 = b.2 ∧ firstPos a.1 (wordsOf (strL "b ab a b"))
          < firstPos b.1 (wordsOf (strL "b ab a b"))))) ∧
    (∃ P, fieldCharPairs (analyze_text (strL "b ab a b") []) "character_analysis"
        "most_common_letters" = some P ∧
      P.Pairwise (fun a b => b.2 < a.2 ∨
        (a.2 = b.2 ∧ firstPos a.1 (lettersOf (strL "b ab a b"))
          < firstPos b.1 (lettersOf (strL "b ab a b"))))) ∧
    fieldStr (analyze_text (strL "b ab a b") []) "word_analysis" "longest_word"
      = (wordsOf (strL "b ab a b")).find?
          (fun w => decide (w.length = maxLen (wordsOf (strL "b ab a b")))) ∧
    fieldStr (analyze_text (strL "b ab a b") []) "word_analysis" "shortest_word"
      = (wordsOf (strL "b ab a b")).find?
          (fun w => decide (w.length = minLen (wordsOf (strL "b ab a b")))) :=
  first_encounter_tie_break (strL "b ab a b") [] (by decide)

/-! ## C7: block order and field-name rendering in the report -/

theorem lookup_basic (text : Str) (options : OptDict) (h : text ≠ []) :
    (analyze_text text options).lookup "basic_stats"
      = some (JVal.dict (basicStatsDict text)) := by
  simp only [analyze_text, if_neg h]; rfl

theorem lookup_word (text : Str) (options : OptDict) (h : text ≠ []) :
    (analyze_text text options).lookup "word_analysis"
      = some (JVal.dict (wordAnalysisDict (wordsOf text) (topCountOf options))) := by
  simp only [analyze_text, if_neg h]; rfl

theorem lookup_char (text : Str) (options : OptDict) (h : text ≠ []) :
    (analyze_text text options).lookup "character_analysis"
      = some (JVal.dict (charAnalysisDict text)) := by
  simp only [analyze_text, if_neg h]; rfl

theorem lookup_read (text : Str) (options : OptDict) (h : text ≠ []) :
    (analyze_text text options).lookup "readability"
      = some (JVal.dict (readabilityDict (wordsOf text) (sentenceList text))) := by
  simp only [analyze_text, if_neg h]; rfl

theorem lookup_lang (text : Str) (options : OptDict) (h : text ≠ []) :
    (analyze_text text options).lookup "language_detection"
      = (if flagOf "include_language_detection" options then
          some (JVal.dict (langDetectionDict (wordsOf text))) else none) := by
  by_cases hf : flagOf "include_language_detection" options <;>
    by_cases hs : flagOf "include_sentiment" options <;>
    simp only [analyze_text, if_neg h, hf, hs, if_true, if_false] <;> rfl

theorem lookup_sent (text : Str) (options : OptDict) (h : text ≠ []) :
    (analyze_text text options).lookup "sentiment_analysis"
      = (if flagOf "include_sentiment" options then
          some (JVal.dict (sentimentDict (wordsOf text))) else none) := by
  by_cases hf : flagOf "include_language_detection" options <;>
    by_cases hs : flagOf "include_sentiment" options <;>
    simp only [analyze_text, if_neg h, hf, hs, if_true, if_false] <;> rfl

theorem lookup_error_none (text : Str) (options : OptDict) (h : text ≠ []) :
    (analyze_text text options).lookup "error" = none := by
  by_cases hf : flagOf "include_language_detection" options <;>
    by_cases hs : flagOf "include_sentiment" options <;>
    simp only [analyze_text, if_neg h, hf, hs, if_true, if_false] <;> rfl

theorem isHeaderLine_space (v : Str) : isHeaderLine (' ' :: v) = false := rfl

theorem filter_isHeader_nil_of_space :
    ∀ {L : List Str}, (∀ l ∈ L, ∃ v, l = ' ' :: v) → L.filter isHeaderLine = [] := by
  intro L
  induction L with
  | nil => intro _; rfl
  | cons a tl ih =>
    intro hL
    obtain ⟨v, hv⟩ := hL a (List.mem_cons_self a tl)
    rw [List.filter_cons, hv, isHeaderLine_space]
    simp only [Bool.false_eq_true, if_false]
    exact ih (fun l hl => hL l (List.mem_cons_of_mem a hl))

theorem isHeaderLine_bullet (v : Str) : isHeaderLine (bulletP ++ v) = false := rfl

theorem isHeaderLine_bullet2 (u v : Str) :
    isHeaderLine (bulletP ++ u ++ v) = false := rfl

theorem isHeaderLine_bullet3 (u v w : Str) :
    isHeaderLine (bulletP ++ u ++ v ++ w) = false := rfl

theorem isHeaderLine_sub3 (u v w : Str) :
    isHeaderLine (strL "    - '" ++ u ++ v ++ w) = false := rfl

theorem isHeaderLine_emptyLine : isHeaderLine (strL "") = false := rfl

theorem isHeaderLine_title : isHeaderLine titleLine = false := rfl

theorem filter_isHeader_map_sub {α : Type} (g : α → Str) (k : α → Nat) (ps : List α) :
    (ps.map (fun p => strL "    - '" ++ g p ++ strL "': " ++ natRepr (k p))).filter
      isHeaderLine = [] := by
  induction ps with
  | nil => rfl
  | cons p ps ih =>
    rw [List.map_cons, List.filter_cons, isHeaderLine_sub3]
    simp only [Bool.false_eq_true, if_false]
    exact ih

/-- The basic-statistics block of an analysis result: five bulleted
lines under its header. -/
theorem basicBlock_eval (text : Str) (options : OptDict) (h : text ≠ []) :
    ∃ ls, basicStatsBlock (analyze_text text options) = some ls ∧
      ls.filter isHeaderLine = [strL "\uF8FFüìä BASIC STATISTICS:"] := by
  have hb : basicStatsBlock (analyze_text text options) = some
      [strL "\uF8FFüìä BASIC STATISTICS:",
       bulletP ++ strL "Total Characters: " ++ natRepr text.length,
       bulletP ++ strL "Characters (no spaces): "
         ++ natRepr (text.filter (fun c => decide (c ≠ ' '))).length,
       bulletP ++ strL "Total Words: " ++ natRepr (wordsOf text).length,
       bulletP ++ strL "Total Sentences: " ++ natRepr (sentenceList text).length,
       bulletP ++ strL "Total Paragraphs: " ++ natRepr (paragraphList text).length,
       strL ""] := by
    rw [basicStatsBlock.eq_def, lookup_basic text options h, lookup_word text options h]
    rfl
  refine ⟨_, hb, ?_⟩
  rw [List.filter_cons]
  simp only [show isHeaderLine (strL "\uF8FFüìä BASIC STATISTICS:") = true from rfl,
    if_true, List.filter_cons, isHeaderLine_bullet, isHeaderLine_bullet2,
    isHeaderLine_bullet3, isHeaderLine_emptyLine,
    Bool.false_eq_true, if_false, List.filter_nil]

/-- The word-analysis block: a header followed by space-prefixed
lines. -/
theorem wordBlock_eval (text : Str) (options : OptDict) (h : text ≠ []) :
    ∃ ls, wordAnalysisBlock (analyze_text text options) = some ls ∧
      ls.filter isHeaderLine = [strL "\uF8FFüìù WORD ANALYSIS:"] := by
  rcases hwe : wordsOf text with _ | ⟨w0, ws0⟩
  · refine ⟨[strL "\uF8FFüìù WORD ANALYSIS:", strL ""], ?_, by decide⟩
    rw [wordAnalysisBlock.eq_def, lookup_word text options h, hwe]
    rfl
  · have hb : wordAnalysisBlock (analyze_text text options) = some
        (strL "\uF8FFüìù WORD ANALYSIS:" ::
          ([bulletP ++ strL "Average Word Length: " ++ fmt2 (avgWordLength (w0 :: ws0))]
           ++ [bulletP ++ strL "Longest Word: '" ++ pyMaxByLen w0 ws0 ++ strL "'"]
           ++ [bulletP ++ strL "Shortest Word: '" ++ pyMinByLen w0 ws0 ++ strL "'"]
           ++ [bulletP ++ strL "Lexical Diversity: "
                ++ fmt2 (((firstOccurrences (w0 :: ws0)).length : ℚ)
                    / ((w0 :: ws0).length : ℚ))]
           ++ ((bulletP ++ strL "Most Common Words:") ::
                (most_common (w0 :: ws0) (topCountOf options)).map
                  (fun p => strL "    - '" ++ p.1 ++ strL "': " ++ natRepr p.2))
           ++ [strL ""])) := by
      rw [wordAnalysisBlock.eq_def, lookup_word text options h, hwe]
      rfl
    refine ⟨_, hb, ?_⟩
    rw [List.filter_cons]
    simp only [show isHeaderLine (strL "\uF8FFüìù WORD ANALYSIS:") = true from rfl,
      if_true, List.filter_append, List.filter_cons, isHeaderLine_bullet,
      isHeaderLine_bullet2, isHeaderLine_bullet3,
      isHeaderLine_emptyLine, Bool.false_eq_true, if_false, List.filter_nil,
      filter_isHeader_map_sub, List.append_nil, List.nil_append]

theorem filter_isHeader_map_bullet3 {α : Type} (f1 f2 f3 : α → Str) (ps : List α) :
    (ps.map (fun x => bulletP ++ f1 x ++ f2 x ++ f3 x)).filter isHeaderLine = [] := by
  induction ps with
  | nil => rfl
  | cons p ps ih =>
    rw [List.map_cons, List.filter_cons, isHeaderLine_bullet3]
    simp only [Bool.false_eq_true, if_false]
    exact ih

theorem charItemLines_cons (k : String) (v : JVal) (rest : List (String × JVal)) :
    charItemLines ((k, v) :: rest) = (charItemLines rest).bind (fun rs =>
      if k = "most_common_letters" then
        match v with
        | JVal.charPairs ps => some (((bulletP ++ strL "Most Common Letters:") ::
            ps.map (fun p => strL "    - '" ++ [p.1] ++ strL "': " ++ natRepr p.2)) ++ rs)
        | JVal.wordPairs ps => some (((bulletP ++ strL "Most Common Letters:") ::
            ps.map (fun p => strL "    - '" ++ p.1 ++ strL "': " ++ natRepr p.2)) ++ rs)
        | _ => none
      else
        some ((bulletP ++ pyTitle (underscoreToSpace k.toList) ++ strL ": "
          ++ pyStrOf v) :: rs)) := rfl

/-- The per-item lines of the character block, on a dictionary without
the `most_common_letters` key: one title-cased line per item. -/
theorem charItemLines_counts (d : List (String × JVal))
    (hd : ∀ kv ∈ d, kv.1 ≠ "most_common_letters") :
    charItemLines d = some (d.map (fun kv =>
      bulletP ++ pyTitle (underscoreToSpace kv.1.toList) ++ strL ": " ++ pyStrOf kv.2)) := by
  induction d with
  | nil => rfl
  | cons kv rest ih =>
    obtain ⟨k, v⟩ := kv
    rw [charItemLines_cons, ih (fun kv hkv => hd kv (List.mem_cons_of_mem _ hkv)),
      Option.some_bind, if_neg (hd (k, v) (List.mem_cons_self _ _))]
    rfl

/-- The character-analysis block: its header, and a title-cased line
for every count field. -/
theorem charBlock_eval (text : Str) (options : OptDict) (h : text ≠ []) :
    ∃ ls, charAnalysisBlock (analyze_text text options) = some ls ∧
      ls.filter isHeaderLine = [strL "üî§ CHARACTER ANALYSIS:"] ∧
      ∀ k v, (k, v) ∈ charAnalysisDict text → k ≠ "most_common_letters" →
        (bulletP ++ pyTitle (underscoreToSpace k.toList) ++ strL ": " ++ pyStrOf v) ∈ ls := by
  have hkeys : ∀ kv ∈
      [("uppercase_count", JVal.nat (text.countP asciiIsUpper)),
       ("lowercase_count", JVal.nat (text.countP asciiIsLower)),
       ("digit_count", JVal.nat (text.countP asciiIsDigit)),
       ("punctuation_count", JVal.nat (text.countP isPunctChar)),
       ("whitespace_count", JVal.nat (text.countP pyIsSpace))],
      kv.1 ≠ "most_common_letters" := by
    intro kv hkv
    simp only [List.mem_cons, List.not_mem_nil, or_false] at hkv
    rcases hkv with rfl | rfl | rfl | rfl | rfl <;> simp
  by_cases hl : lettersOf text = []
  · have hdeq : charAnalysisDict text =
        [("uppercase_count", JVal.nat (text.countP asciiIsUpper)),
         ("lowercase_count", JVal.nat (text.countP asciiIsLower)),
         ("digit_count", JVal.nat (text.countP asciiIsDigit)),
         ("punctuation_count", JVal.nat (text.countP isPunctChar)),
         ("whitespace_count", JVal.nat (text.countP pyIsSpace))] := by
      unfold charAnalysisDict
      rw [if_pos hl]
      rfl
    have hb : charAnalysisBlock (analyze_text text options) = some
        (strL "üî§ CHARACTER ANALYSIS:" ::
          ((charAnalysisDict text).map (fun kv =>
            bulletP ++ pyTitle (underscoreToSpace kv.1.toList) ++ strL ": " ++ pyStrOf kv.2)
           ++ [strL ""])) := by
      rw [charAnalysisBlock.eq_def, lookup_char text options h]
      rw [show (match some (JVal.dict (charAnalysisDict text)) with
          | none => some ([] : List Str)
          | some (JVal.dict char_stats) =>
            Option.map (fun ls => strL "\uF8FFüî§ CHARACTER ANALYSIS:" :: (ls ++ [strL ""]))
              (charItemLines char_stats)
          | some _ => none)
          = Option.map (fun ls => strL "\uF8FFüî§ CHARACTER ANALYSIS:" :: (ls ++ [strL ""]))
              (charItemLines (charAnalysisDict text)) from rfl]
      rw [charItemLines_counts (charAnalysisDict text) (by rw [hdeq]; exact hkeys)]
      rfl
    refine ⟨_, hb, ?_, ?_⟩
    · rw [List.filter_cons]
      simp only [show isHeaderLine (strL "üî§ CHARACTER ANALYSIS:") = true from rfl,
        if_true, List.filter_append, filter_isHeader_map_bullet3, List.filter_cons,
        isHeaderLine_emptyLine, Bool.false_eq_true, if_false, List.filter_nil,
        List.nil_append]
    · intro k v hkv hkne
      exact List.mem_cons_of_mem _
        (List.mem_append_left _ (List.mem_map_of_mem _ hkv))
  · have hdeq : charAnalysisDict text =
        ("most_common_letters", JVal.charPairs (most_common (lettersOf text) 5)) ::
        [("uppercase_count", JVal.nat (text.countP asciiIsUpper)),
         ("lowercase_count", JVal.nat (text.countP asciiIsLower)),
         ("digit_count", JVal.nat (text.countP asciiIsDigit)),
         ("punctuation_count", JVal.nat (text.countP isPunctChar)),
         ("whitespace_count", JVal.nat (text.countP pyIsSpace))] := by
      unfold charAnalysisDict
      rw [if_neg hl]
      rfl
    have hitems : charItemLines (charAnalysisDict text) = some
        (((bulletP ++ strL "Most Common Letters:") ::
          (most_common (lettersOf text) 5).map
            (fun p => strL "    - '" ++ [p.1] ++ strL "': " ++ natRepr p.2))
         ++ [("uppercase_count", JVal.nat (text.countP asciiIsUpper)),
             ("lowercase_count", JVal.nat (text.countP asciiIsLower)),
             ("digit_count", JVal.nat (text.countP asciiIsDigit)),
             ("punctuation_count", JVal.nat (text.countP isPunctChar)),
             ("whitespace_count", JVal.nat (text.countP pyIsSpace))].map (fun kv =>
               bulletP ++ pyTitle (underscoreToSpace kv.1.toList) ++ strL ": "
                 ++ pyStrOf kv.2)) := by
      rw [hdeq, charItemLines_cons, charItemLines_counts _ hkeys,
        Option.some_bind, if_pos rfl]
    have hb : charAnalysisBlock (analyze_text text options) = some
        (strL "üî§ CHARACTER ANALYSIS:" ::
          ((((bulletP ++ strL "Most Common Letters:") ::
            (most_common (lettersOf text) 5).map
              (fun p => strL "    - '" ++ [p.1] ++ strL "': " ++ natRepr p.2))
           ++ [("uppercase_count", JVal.nat (text.countP asciiIsUpper)),
               ("lowercase_count", JVal.nat (text.countP asciiIsLower)),
               ("digit_count", JVal.nat (text.countP asciiIsDigit)),
               ("punctuation_count", JVal.nat (text.countP isPunctChar)),
               ("whitespace_count", JVal.nat (text.countP pyIsSpace))].map (fun kv =>
                 bulletP ++ pyTitle (underscoreToSpace kv.1.toList) ++ strL ": "
                   ++ pyStrOf kv.2))
           ++ [strL ""])) := by
      rw [charAnalysisBlock.eq_def, lookup_char text options h]
      rw [show (match some (JVal.dict (charAnalysisDict text)) with
          | none => some ([] : List Str)
          | some (JVal.dict char_stats) =>
            Option.map (fun ls => strL "\uF8FFüî§ CHARACTER ANALYSIS:" :: (ls ++ [strL ""]))
              (charItemLines char_stats)
          | some _ => none)
          = Option.map (fun ls => strL "\uF8FFüî§ CHARACTER ANALYSIS:" :: (ls ++ [strL ""]))
              (charItemLines (charAnalysisDict text)) from rfl]
      rw [hitems]
      rfl
    refine ⟨_, hb, ?_, ?_⟩
    · rw [List.filter_cons]
      simp only [show isHeaderLine (strL "üî§ CHARACTER ANALYSIS:") = true from rfl,
        if_true, List.filter_append, List.filter_cons, isHeaderLine_bullet,
        filter_isHeader_map_sub, filter_isHeader_map_bullet3, isHeaderLine_emptyLine,
        Bool.false_eq_true, if_false, List.filter_nil, List.nil_append, List.append_nil]
    · intro k v hkv hkne
      rw [hdeq] at hkv
      rcases List.mem_cons.mp hkv with heq | hmem
      · exact absurd (congrArg Prod.fst heq) hkne
      · refine List.mem_cons_of_mem _ (List.mem_append_left _
          (List.mem_append_right _ ?_))
        exact List.mem_map_of_mem _ hmem

/-- The readability block: its header, and a title-cased line for every
field. -/
theorem readBlock_eval (text : Str) (options : OptDict) (h : text ≠ []) :
    ∃ ls, readabilityBlock (analyze_text text options) = some ls ∧
      ls.filter isHeaderLine = [strL "üìñ READABILITY:"] ∧
      ∀ k v, (k, v) ∈ readabilityDict (wordsOf text) (sentenceList text) →
        (bulletP ++ pyTitle (underscoreToSpace k.toList) ++ strL ": " ++ pyStrOf v) ∈ ls := by
  have hb : readabilityBlock (analyze_text text options) = some
      (strL "üìñ READABILITY:" ::
        ((readabilityDict (wordsOf text) (sentenceList text)).map (fun kv =>
          bulletP ++ pyTitle (underscoreToSpace kv.1.toList) ++ strL ": " ++ pyStrOf kv.2)
         ++ [strL ""])) := by
    rw [readabilityBlock.eq_def, lookup_read text options h]
  refine ⟨_, hb, ?_, ?_⟩
  · rw [List.filter_cons]
    simp only [show isHeaderLine (strL "üìñ READABILITY:") = true from rfl,
      if_true, List.filter_append, filter_isHeader_map_bullet3, List.filter_cons,
      isHeaderLine_emptyLine, Bool.false_eq_true, if_false, List.filter_nil,
      List.nil_append]
  · intro k v hkv
    exact List.mem_cons_of_mem _ (List.mem_append_left _ (List.mem_map_of_mem _ hkv))

/-- The language-detection block renders exactly when its flag is set. -/
theorem langBlock_eval (text : Str) (options : OptDict) (h : text ≠ []) :
    ∃ ls, languageBlock (analyze_text text options) = some ls ∧
      ls.filter isHeaderLine
        = (if flagOf "include_language_detection" options then
            [strL "üåê LANGUAGE DETECTION:"] else []) := by
  by_cases hf : flagOf "include_language_detection" options
  · obtain ⟨X, Y, hXY⟩ : ∃ X Y, langDetectionDict (wordsOf text)
        = [("detected_language", JVal.str X), ("confidence", JVal.str Y)] := by
      unfold langDetectionDict
      dsimp only
      split_ifs <;> exact ⟨_, _, rfl⟩
    refine ⟨[strL "üåê LANGUAGE DETECTION:",
      bulletP ++ strL "Detected Language: " ++ X,
      bulletP ++ strL "Confidence: " ++ Y, strL ""], ?_, ?_⟩
    · rw [languageBlock.eq_def, lookup_lang text options h, if_pos hf, hXY]
      rfl
    · rw [if_pos hf]
      rfl
  · refine ⟨[], ?_, by rw [if_neg hf]; rfl⟩
    rw [languageBlock.eq_def, lookup_lang text options h, if_neg hf]

/-- The sentiment block renders exactly when its flag is set. -/
theorem sentBlock_eval (text : Str) (options : OptDict) (h : text ≠ []) :
    ∃ ls, sentimentBlock (analyze_text text options) = some ls ∧
      ls.filter isHeaderLine
        = (if flagOf "include_sentiment" options then
            [strL "üòä SENTIMENT ANALYSIS:"] else []) := by
  by_cases hf : flagOf "include_sentiment" options
  · obtain ⟨S, a, b, hS⟩ : ∃ S a b, sentimentDict (wordsOf text)
        = [("sentiment", JVal.str S), ("positive_words_count", JVal.nat a),
           ("negative_words_count", JVal.nat b)] := ⟨_, _, _, rfl⟩
    refine ⟨[strL "üòä SENTIMENT ANALYSIS:",
      bulletP ++ strL "Overall Sentiment: " ++ S,
      bulletP ++ strL "Positive Words: " ++ natRepr a,
      bulletP ++ strL "Negative Words: " ++ natRepr b, strL ""], ?_, ?_⟩
    · rw [sentimentBlock.eq_def, lookup_sent text options h, if_pos hf, hS]
      rfl
    · rw [if_pos hf]
      rfl
  · refine ⟨[], ?_, by rw [if_neg hf]; rfl⟩
    rw [sentimentBlock.eq_def, lookup_sent text options h, if_neg hf]

/-- C7 (amended): on any non-error analysis result the report consists
of the title line followed by the section blocks in the fixed order
Basic Statistics, Word Analysis, Character Analysis, Readability,
Language Detection, Sentiment Analysis, each present exactly when its
section is present in the result (the four mandatory blocks always, the
two optional blocks exactly when their flags are set); the field names
of the character-analysis block (apart from `most_common_letters`) and
of the readability block are rendered by replacing underscores with
spaces and title-casing.  (The basic-statistics and word-analysis
blocks use fixed labels instead; see the counterexample.) -/
theorem report_block_order (text : Str) (options : OptDict) (h : text ≠ []) :
    ∃ ls, reportLines (analyze_text text options) = some ls ∧
      format_analysis_report (analyze_text text options)
        = some (List.intercalate (strL "\n") ls) ∧
      ls.filter isHeaderLine
        = [strL "üìä BASIC STATISTICS:", strL "üìù WORD ANALYSIS:",
           strL "üî§ CHARACTER ANALYSIS:", strL "üìñ READABILITY:"]
          ++ (if flagOf "include_language_detection" options then
              [strL "üåê LANGUAGE DETECTION:"] else [])
          ++ (if flagOf "include_sentiment" options then
              [strL "üòä SENTIMENT ANALYSIS:"] else []) ∧
      (∀ k v, (k, v) ∈ charAnalysisDict text → k ≠ "most_common_letters" →
        (bulletP ++ pyTitle (underscoreToSpace k.toList) ++ strL ": " ++ pyStrOf v) ∈ ls) ∧
      (∀ k v, (k, v) ∈ readabilityDict (wordsOf text) (sentenceList text) →
        (bulletP ++ pyTitle (underscoreToSpace k.toList) ++ strL ": " ++ pyStrOf v) ∈ ls) := by
  obtain ⟨ls1, he1, hf1⟩ := basicBlock_eval text options h
  obtain ⟨ls2, he2, hf2⟩ := wordBlock_eval text options h
  obtain ⟨ls3, he3, hf3, hm3⟩ := charBlock_eval text options h
  obtain ⟨ls4, he4, hf4, hm4⟩ := readBlock_eval text options h
  obtain ⟨ls5, he5, hf5⟩ := langBlock_eval text options h
  obtain ⟨ls6, he6, hf6⟩ := sentBlock_eval text options h
  have hrl : reportLines (analyze_text text options)
      = some (titleLine :: (ls1 ++ ls2 ++ ls3 ++ ls4 ++ ls5 ++ ls6)) := by
    simp only [reportLines, he1, he2, he3, he4, he5, he6, Option.some_bind]
    rfl
  have hfm : format_analysis_report (analyze_text text options)
      = some (List.intercalate (strL "\n")
          (titleLine :: (ls1 ++ ls2 ++ ls3 ++ ls4 ++ ls5 ++ ls6))) := by
    rw [format_analysis_report.eq_def, lookup_error_none text options h, hrl]
  refine ⟨_, hrl, hfm, ?_, ?_, ?_⟩
  · rw [List.filter_cons]
    simp only [isHeaderLine_title, Bool.false_eq_true, if_false, List.filter_append,
      hf1, hf2, hf3, hf4, hf5, hf6]
    cases flagOf "include_language_detection" options <;>
      cases flagOf "include_sentiment" options <;> rfl
  · intro k v hkv hkne
    exact List.mem_cons_of_mem _ (List.mem_append_left _ (List.mem_append_left _
      (List.mem_append_left _ (List.mem_append_right _ (hm3 k v hkv hkne)))))
  · intro k v hkv
    exact List.mem_cons_of_mem _ (List.mem_append_left _ (List.mem_append_left _
      (List.mem_append_right _ (hm4 k v hkv))))

unseal Rat.mul Rat.inv Rat.add Rat.sub Rat.ofScientific in
/-- C7 counterexample: the result of `analyze_text "Hi"` has the field
`total_characters_no_spaces` (value `2`) in `basic_stats`, but its
report contains no line labelled with the underscore-to-space
title-casing of that name (`Total Characters No Spaces`); the line
actually rendered uses the fixed label `Characters (no spaces)`. -/
theorem report_title_case_cex :
    fieldNat (analyze_text (strL "Hi") []) "basic_stats" "total_characters_no_spaces"
      = some 2 ∧
    ¬ ((bulletP ++ pyTitle (underscoreToSpace (strL "total_characters_no_spaces"))
        ++ strL ": " ++ pyStrOf (JVal.nat 2))
      ∈ (reportLines (analyze_text (strL "Hi") [])).getD []) ∧
    (bulletP ++ strL "Characters (no spaces): " ++ natRepr 2)
      ∈ (reportLines (analyze_text (strL "Hi") [])).getD [] := by
  decide

/-- Witness for C7 (amended) at `"Hi"`. -/
theorem report_block_order_witness :
    ∃ ls, reportLines (analyze_text (strL "Hi") []) = some ls ∧
      format_analysis_report (analyze_text (strL "Hi") [])
        = some (List.intercalate (strL "\n") ls) ∧
      ls.filter isHeaderLine
        = [strL "üìä BASIC STATISTICS:", strL "üìù WORD ANALYSIS:",
           strL "üî§ CHARACTER ANALYSIS:", strL "üìñ READABILITY:"]
          ++ (if flagOf "include_language_detection" [] then
              [strL "üåê LANGUAGE DETECTION:"] else [])
          ++ (if flagOf "include_sentiment" [] then
              [strL "üòä SENTIMENT ANALYSIS:"] else []) ∧
      (∀ k v, (k, v) ∈ charAnalysisDict (strL "Hi") → k ≠ "most_common_letters" →
        (bulletP ++ pyTitle (underscoreToSpace k.toList) ++ strL ": " ++ pyStrOf v) ∈ ls) ∧
      (∀ k v, (k, v) ∈ readabilityDict (wordsOf (strL "Hi")) (sentenceList (strL "Hi")) →
        (bulletP ++ pyTitle (underscoreToSpace k.toList) ++ strL ": " ++ pyStrOf v) ∈ ls) :=
  report_block_order (strL "Hi") [] (by decide)

end TextAnalyzer
